import Mathlib

/-!
CustomCoreManager: process supervisor and least-busy-core selection

A shallow embedding of `ProcessManager.cpp` and `FindLeastBusyCore.cpp`.

* `std::map<K, V>` is an association list kept in ascending key order
  (`mapCount`, `mapAt`, `mapAssign`, `mapErase`).
* Every operating-system call (`fork`, `execv`, `waitpid`, `kill`, the clock)
  is an explicit input of the operation that makes it, and every operation
  returns, next to the new table, the list of calls it issued, in order.
* Each operation is modelled as one atomic step on the table: the source
  holds `trackerMutex` for the whole body.
* A blocking `waitpid(pid, nullptr, 0)` has an outcome of its own: it returns,
  or it never does. The operations that make one (`controlProcess`,
  `cleanupProcesses`) yield an `Outcome`, which says whether they return.
-/

namespace CustomCoreManager

/-! ## Data model (`Command.h`, `TrackedProcess.h`, `ProcessManager.h`) -/

/-- The `Command` struct of `Command.h`. -/
structure Command where
  id : String := ""
  action : String := ""
  programPath : String := ""
  args : List String := []
  processId : String := ""
deriving DecidableEq, Repr

/-- The `TrackedProcess` struct of `TrackedProcess.h`, with its default member values. -/
structure TrackedProcess where
  pid : Int := 0
  status : String := "initialized"
  path : String := ""
  startTime : Int := 0
deriving DecidableEq, Repr

/-- The member `runningProcesses`, a `std::map<std::string, TrackedProcess>`. -/
abbrev ProcessTable := List (String × TrackedProcess)

/-- Linux value of `SIGSTOP`. -/
def SIGSTOP : Int := 19
/-- Linux value of `SIGCONT`. -/
def SIGCONT : Int := 18
/-- Linux value of `SIGTERM`. -/
def SIGTERM : Int := 15

def SIG_PAUSE : Int := SIGSTOP
def SIG_RESUME : Int := SIGCONT
def SIG_TERMINATE : Int := SIGTERM

/-- Linux value of the `waitpid` option `WNOHANG`. -/
def WNOHANG : Int := 1

/-! ## `std::map` -/

section StdMap

variable {κ ν : Type} [DecidableEq κ]

/-- The lookup `std::map::at`; `none` stands for the `out_of_range` exception. -/
def mapAt (k : κ) : List (κ × ν) → Option ν
  | [] => none
  | (k', v) :: rest => if k' = k then some v else mapAt k rest

/-- The member `std::map::count`: 1 when the key is present, else 0. -/
def mapCount (k : κ) (m : List (κ × ν)) : Nat :=
  if (mapAt k m).isSome then 1 else 0

/-- The assignment `m[k] = v`: replaces the value of an existing key, otherwise
inserts the pair at its place in key order. `less` is the map's comparison
(`std::less<Key>`). -/
def mapAssign (less : κ → κ → Bool) (k : κ) (v : ν) : List (κ × ν) → List (κ × ν)
  | [] => [(k, v)]
  | (k', v') :: rest =>
    if less k k' then (k, v) :: (k', v') :: rest
    else if k = k' then (k, v) :: rest
    else (k', v') :: mapAssign less k v rest

/-- The member `std::map::erase(key)`. -/
def mapErase (k : κ) : List (κ × ν) → List (κ × ν)
  | [] => []
  | (k', v) :: rest => if k' = k then mapErase k rest else (k', v) :: mapErase k rest

/-- Assignment through a reference obtained from `at(k)`: the value stored
under `k` is replaced by `f` of it, the key set is unchanged. -/
def mapModify (k : κ) (f : ν → ν) : List (κ × ν) → List (κ × ν)
  | [] => []
  | (k', v) :: rest =>
    if k' = k then (k', f v) :: mapModify k f rest else (k', v) :: mapModify k f rest

end StdMap

/-- The comparison `std::less<std::string>`: lexicographic on the characters. -/
def stringLess (a b : String) : Bool := decide (a.data < b.data)

/-- The comparison `std::less<int>`. -/
def intLess (a b : Int) : Bool := decide (a < b)

/-! ## Operating-system calls -/

/-- One call made to the operating system. -/
inductive OsCall where
  | fork
  | execv (path : String) (argv : List String)
  | waitpid (pid : Int) (options : Int)
  | kill (pid : Int) (sig : Int)
deriving DecidableEq, Repr

/-- What a `waitpid(pid, &status, options)` call hands back: its return value and
the content of `status` afterwards (whatever the uninitialised variable held
when the call did not write it). -/
structure WaitResult where
  ret : Int
  status : Int
deriving DecidableEq, Repr

/-- The glibc macro `WTERMSIG(status)`, `status & 0x7f`. -/
def WTERMSIG (status : Int) : Int := status % 128

/-- The glibc macro `WIFEXITED(status)`, `WTERMSIG(status) == 0`. -/
def WIFEXITED (status : Int) : Bool := WTERMSIG status == 0

/-- The glibc macro `WIFSIGNALED(status)`,
`((signed char) ((status & 0x7f) + 1) >> 1) > 0`. -/
def WIFSIGNALED (status : Int) : Bool :=
  let t := WTERMSIG status + 1
  let c := if t ≥ 128 then t - 256 else t
  decide (c / 2 > 0)

/-! ## `ProcessManager` -/

/-- The helper `ProcessManager::createArgv`: the program path is `argv[0]`. -/
def createArgv (path : String) (args : List String) : List String :=
  path :: args

/-- The method `ProcessManager::startProgram`. `forkRes` is what `fork()` returns
and `now` the clock reading in epoch seconds; both are consulted only where the
source makes the call. In the branch `pid == 0` the code runs in the child,
which replaces its image or exits: there the (copied) table is left as it is. -/
def startProgram (cmd : Command) (forkRes : Int) (now : Int) (T : ProcessTable) :
    ProcessTable × List OsCall :=
  if cmd.programPath = "" then (T, [])
  else if mapCount cmd.id T ≠ 0 then (T, [])
  else
    let argv := createArgv cmd.programPath cmd.args
    if forkRes = -1 then (T, [OsCall.fork])
    else if forkRes = 0 then (T, [OsCall.fork, OsCall.execv cmd.programPath argv])
    else
      let newProc : TrackedProcess :=
        { pid := forkRes, status := "running", path := cmd.programPath, startTime := now }
      (mapAssign stringLess cmd.id newProc T, [OsCall.fork])

/-- The liveness test of `controlProcess`:
`waitpid(pid, &status, WNOHANG) != 0 && (WIFEXITED(status) || WIFSIGNALED(status))`. -/
def alreadyExited (w : WaitResult) : Bool :=
  decide (w.ret ≠ 0) && (WIFEXITED w.status || WIFSIGNALED w.status)

/-- How an operation that may wait for a child to exit ends. When `returns` is
true the operation has returned: `table` is the table it leaves and `calls`
the calls it made. When `returns` is false its last call, a blocking
`waitpid(pid, nullptr, 0)`, never returns: `table` is the table at that point,
which the operation keeps locked, and nothing after that call is executed. -/
structure Outcome where
  table : ProcessTable
  calls : List OsCall
  returns : Bool
deriving DecidableEq, Repr

/-- The operation returns. -/
abbrev Outcome.returned (table : ProcessTable) (calls : List OsCall) : Outcome :=
  { table := table, calls := calls, returns := true }

/-- The operation stays blocked in its last call. -/
abbrev Outcome.blocked (table : ProcessTable) (calls : List OsCall) : Outcome :=
  { table := table, calls := calls, returns := false }

/-- The method `ProcessManager::controlProcess`. `w` is the outcome of the
non-blocking `waitpid`, `killRes` what `kill` returns, and `blockRes` the
outcome of the blocking `waitpid(pid, nullptr, 0)` of the terminate path:
`none` when that call never returns (the child does not exit: it is stopped
with the signal pending, or ignores it), otherwise its return value, which the
source discards. The entry is erased only after that call has returned. -/
def controlProcess (processId : String) (signalVal : Int) (newStatus : String)
    (w : WaitResult) (killRes : Int) (blockRes : Option Int) (T : ProcessTable) : Outcome :=
  match mapAt processId T with
  | none => Outcome.returned T []
  | some proc =>
    let pid := proc.pid
    if alreadyExited w then
      Outcome.returned (mapModify processId (fun p => { p with status := "finished" }) T)
        [OsCall.waitpid pid WNOHANG]
    else if killRes = -1 then
      Outcome.returned T [OsCall.waitpid pid WNOHANG, OsCall.kill pid signalVal]
    else
      let T1 := mapModify processId (fun p => { p with status := newStatus }) T
      if newStatus = "terminated" then
        match blockRes with
        | none =>
          Outcome.blocked T1
            [OsCall.waitpid pid WNOHANG, OsCall.kill pid signalVal, OsCall.waitpid pid 0]
        | some _ =>
          Outcome.returned (mapErase processId T1)
            [OsCall.waitpid pid WNOHANG, OsCall.kill pid signalVal, OsCall.waitpid pid 0]
      else
        Outcome.returned T1 [OsCall.waitpid pid WNOHANG, OsCall.kill pid signalVal]

/-- The scan of `monitorProcesses` over the table: every entry whose pid is the
reaped one is erased, the others are stepped over. -/
def eraseReaped (pid : Int) : ProcessTable → ProcessTable
  | [] => []
  | e :: rest => if e.2.pid = pid then eraseReaped pid rest else e :: eraseReaped pid rest

/-- One iteration of the loop of `ProcessManager::monitorProcesses`; `w` is the
outcome of `waitpid(-1, &status, WNOHANG)`. -/
def monitorTick (w : WaitResult) (T : ProcessTable) : ProcessTable × List OsCall :=
  if w.ret > 0 then (eraseReaped w.ret T, [OsCall.waitpid (-1) WNOHANG])
  else (T, [OsCall.waitpid (-1) WNOHANG])

/-- The signalling loop of `cleanupProcesses` over the copied keys. `killRes i`
is what the `i`-th `kill` call of the loop returns and `waitRes i` the outcome
of the blocking `waitpid(pid, nullptr, 0)` made after it when it returned 0:
`none` when that call never returns, otherwise its return value, which the
source discards. The result is the calls made and whether the loop ran to its
end; it stops at a wait that does not return. -/
def cleanupSignals (T : ProcessTable) (killRes : Nat → Int) (waitRes : Nat → Option Int) :
    Nat → List String → List OsCall × Bool
  | _, [] => ([], true)
  | i, id :: ids =>
    match mapAt id T with
    | none => cleanupSignals T killRes waitRes i ids
    | some proc =>
      if killRes i = 0 then
        match waitRes i with
        | none => ([OsCall.kill proc.pid SIG_TERMINATE, OsCall.waitpid proc.pid 0], false)
        | some _ =>
          (OsCall.kill proc.pid SIG_TERMINATE :: OsCall.waitpid proc.pid 0 ::
            (cleanupSignals T killRes waitRes (i + 1) ids).1,
            (cleanupSignals T killRes waitRes (i + 1) ids).2)
      else
        (OsCall.kill proc.pid SIG_TERMINATE :: (cleanupSignals T killRes waitRes (i + 1) ids).1,
          (cleanupSignals T killRes waitRes (i + 1) ids).2)

/-- The method `ProcessManager::cleanupProcesses`. The map is cleared only when
the loop has run to its end. -/
def cleanupProcesses (killRes : Nat → Int) (waitRes : Nat → Option Int) (T : ProcessTable) :
    Outcome :=
  if T.isEmpty then Outcome.returned T []
  else if (cleanupSignals T killRes waitRes 0 (T.map Prod.fst)).2 then
    Outcome.returned [] (cleanupSignals T killRes waitRes 0 (T.map Prod.fst)).1
  else
    Outcome.blocked T (cleanupSignals T killRes waitRes 0 (T.map Prod.fst)).1

/-! ## IEEE-754 binary64 arithmetic

`find_least_busy_core` computes and compares usages in `double`. A finite
`double` is kept exactly, as `mant * 2 ^ exp`; every operation computes the
exact rational result and rounds it to 53 significant bits, ties to even.
All values met here come from 64-bit integers, a factor 100 and one division,
so they stay inside the normal range (no overflow to infinity, no subnormal).
-/

/-- A finite `double`, of value `mant * 2 ^ exp`. -/
structure Dbl where
  mant : Int
  exp : Int
deriving DecidableEq, Repr

/-- Numerator of the value of `x` over `Dbl.den x`. -/
def Dbl.num (x : Dbl) : Int := x.mant * 2 ^ x.exp.toNat

/-- Denominator of the value of `x`, a power of two. -/
def Dbl.den (x : Dbl) : Nat := 2 ^ (-x.exp).toNat

/-- The comparison `x < y` of two `double`s. -/
def Dbl.lt (x y : Dbl) : Bool := decide (x.num * (y.den : Int) < y.num * (x.den : Int))

/-- Halving loop counting the binary digits of `n`; `fuel` bounds the number
of rounds. -/
def bitLengthAux : Nat → Nat → Nat
  | 0, _ => 0
  | fuel + 1, n => if n = 0 then 0 else bitLengthAux fuel (n / 2) + 1

/-- Number of binary digits of `n` (0 for 0). -/
def bitLength (n : Nat) : Nat := bitLengthAux n n

/-- The `double` nearest to the rational `n / d` (round to nearest, ties to
even). For `d = 0` the model yields zero; the source never divides by zero. -/
def roundToDouble (n : Int) (d : Nat) : Dbl :=
  if n = 0 ∨ d = 0 then ⟨0, 0⟩
  else
    let a := n.natAbs
    let k : Int := (bitLength a : Int) - (bitLength d : Int)
    let e : Int := if d * 2 ^ k.toNat ≤ a * 2 ^ (-k).toNat then k else k - 1
    let s : Int := 52 - e
    let scaledNum := a * 2 ^ s.toNat
    let scaledDen := d * 2 ^ (-s).toNat
    let q := scaledNum / scaledDen
    let r := scaledNum % scaledDen
    let q' := if 2 * r > scaledDen ∨ (2 * r = scaledDen ∧ q % 2 = 1) then q + 1 else q
    ⟨if n < 0 then -(q' : Int) else (q' : Int), -s⟩

/-- Conversion of a `long long` to `double`. -/
def Dbl.ofInt (x : Int) : Dbl := roundToDouble x 1

/-- The product `x * y` in `double`. -/
def Dbl.mul (x y : Dbl) : Dbl := roundToDouble (x.num * y.num) (x.den * y.den)

/-- The quotient `x / y` in `double`. -/
def Dbl.div (x y : Dbl) : Dbl :=
  roundToDouble (x.num * (y.den : Int) * y.num.sign) (x.den * y.num.natAbs)

/-- The literal `100.0`. -/
def hundred : Dbl := ⟨100, 0⟩

/-! ## `FindLeastBusyCore.cpp` -/

/-- The struct `CoreStats`; both members are `long long`. -/
structure CoreStats where
  total : Int := 0
  idle : Int := 0
deriving DecidableEq, Repr

/-- A `std::map<int, CoreStats>`. -/
abbrev StatsMap := List (Int × CoreStats)

/-- Two's-complement wrap of a `long long` result. -/
def wrap64 (x : Int) : Int := (x + 2 ^ 63) % 2 ^ 64 - 2 ^ 63

/-- The classification `std::isspace` in the "C" locale. -/
def isSpace (c : Char) : Bool :=
  c == ' ' || c == '\t' || c == '\n' || c == '\x0b' || c == '\x0c' || c == '\r'

/-- Value of a run of decimal digits. -/
def digitsValue (ds : List Char) : Nat :=
  ds.foldl (fun acc c => 10 * acc + (c.toNat - 48)) 0

/-- One extraction `ss >> x` into a `long long`: leading white space is skipped,
an optional sign and the longest run of decimal digits are consumed. It fails
(`none`) when there is no digit or the value does not fit in 64 bits; otherwise
it gives the value and the unread rest of the stream. -/
def extractLongLong (s : List Char) : Option (Int × List Char) :=
  let s1 := s.dropWhile isSpace
  let signed : Bool × List Char :=
    match s1 with
    | '-' :: r => (true, r)
    | '+' :: r => (false, r)
    | _ => (false, s1)
  let ds := signed.2.takeWhile Char.isDigit
  let rest := signed.2.dropWhile Char.isDigit
  if ds = [] then none
  else
    let v : Int := if signed.1 then -(digitsValue ds : Int) else (digitsValue ds : Int)
    if v < -(2 ^ 63) ∨ 2 ^ 63 ≤ v then none else some (v, rest)

/-- The chained extraction `ss >> user >> nice >> system >> idle`. -/
def extractFour (s : List Char) : Option (Int × Int × Int × Int) :=
  match extractLongLong s with
  | none => none
  | some (user, s1) =>
    match extractLongLong s1 with
    | none => none
    | some (nice, s2) =>
      match extractLongLong s2 with
      | none => none
      | some (system, s3) =>
        match extractLongLong s3 with
        | none => none
        | some (idle, _) => some (user, nice, system, idle)

/-- The `while` loop of `read_cpu_stats` over the lines that follow the first
one. It stops at the first line that does not begin with `cpu`. The counter
`core_id` is an `int`; it never exceeds the number of lines read and is kept
unbounded. The sum of the four fields is a `long long` sum. -/
def readCoreLines : List String → Int → StatsMap → StatsMap
  | [], _, stats_map => stats_map
  | line :: rest, core_id, stats_map =>
    if line.data.take 3 ≠ ['c', 'p', 'u'] then stats_map
    else if line.data.length > 3 ∧ (line.data.drop 3).head?.any Char.isDigit then
      match extractFour (line.data.drop 4) with
      | some (user, nice, system, idle) =>
        let stats : CoreStats :=
          { total := wrap64 (wrap64 (wrap64 (user + nice) + system) + idle), idle := idle }
        readCoreLines rest (core_id + 1) (mapAssign intLess core_id stats stats_map)
      | none => readCoreLines rest core_id stats_map
    else readCoreLines rest core_id stats_map

/-- The function `read_cpu_stats`. The statistics file is `none` when it cannot
be opened, otherwise the list of its lines as `std::getline` returns them. The
result is the returned flag and the content of `stats_map`. -/
def read_cpu_stats (file : Option (List String)) : Bool × StatsMap :=
  match file with
  | none => (false, [])
  | some lines =>
    let stats_map := readCoreLines (lines.drop 1) 0 []
    (!stats_map.isEmpty, stats_map)

/-- The expression `100.0 * (delta_total - delta_idle) / delta_total`. -/
def usagePercent (delta_total delta_idle : Int) : Dbl :=
  Dbl.div (Dbl.mul hundred (Dbl.ofInt (wrap64 (delta_total - delta_idle))))
    (Dbl.ofInt delta_total)

/-- The local `delta_total = s2.total - s1.total`, a `long long`. -/
def deltaTotal (s1 s2 : CoreStats) : Int := wrap64 (s2.total - s1.total)

/-- The local `delta_idle = s2.idle - s1.idle`, a `long long`. -/
def deltaIdle (s1 s2 : CoreStats) : Int := wrap64 (s2.idle - s1.idle)

/-- Body of the selection loop of `find_least_busy_core` for one entry of
`stats1`; the state is `(least_busy_core, min_usage)`. -/
def selectStep (stats2 : StatsMap) (acc : Int × Dbl) (pair1 : Int × CoreStats) : Int × Dbl :=
  let core_id := pair1.1
  let s1 := pair1.2
  match mapAt core_id stats2 with
  | none => acc
  | some s2 =>
    let delta_total := deltaTotal s1 s2
    let delta_idle := deltaIdle s1 s2
    if delta_total > 0 then
      let usage_percent := usagePercent delta_total delta_idle
      if Dbl.lt usage_percent acc.2 then (core_id, usage_percent) else acc
    else acc

/-- Step 4 of `find_least_busy_core`: the loop over `stats1`, started with
`least_busy_core = -1` and `min_usage = 100.0`. -/
def selectLeastBusy (stats1 stats2 : StatsMap) : Int :=
  (stats1.foldl (selectStep stats2) (-1, hundred)).1

/-- The function `find_least_busy_core`; `file1` and `file2` are the statistics
file as found by the first and by the second read. -/
def find_least_busy_core (file1 file2 : Option (List String)) : Int :=
  let r1 := read_cpu_stats file1
  if !r1.1 then -1
  else
    let r2 := read_cpu_stats file2
    if !r2.1 then -1
    else selectLeastBusy r1.2 r2.2

/-! ## Operations of the dispatch loop, the monitor and shutdown -/

/-- The three control actions of the dispatch loop of `processCommands`. -/
inductive ControlAction where
  | pause
  | resume
  | terminate
deriving DecidableEq, Repr

/-- Signal passed to `controlProcess` for a control action. -/
def ControlAction.signal : ControlAction → Int
  | .pause => SIG_PAUSE
  | .resume => SIG_RESUME
  | .terminate => SIG_TERMINATE

/-- Target status passed to `controlProcess` for a control action. -/
def ControlAction.target : ControlAction → String
  | .pause => "paused"
  | .resume => "running"
  | .terminate => "terminated"

/-- One operation of the supervisor on the table, with the outcomes of the
operating-system calls it may make. -/
inductive SupervisorOp where
  | start (cmd : Command) (forkRes now : Int)
  | control (processId : String) (a : ControlAction) (w : WaitResult) (killRes : Int)
      (blockRes : Option Int)
  | monitor (w : WaitResult)
  | cleanup (killRes : Nat → Int) (waitRes : Nat → Option Int)

/-- Runs one supervisor operation. `startProgram` and the monitor tick make no
blocking call and always return. -/
def SupervisorOp.run : SupervisorOp → ProcessTable → Outcome
  | .start cmd forkRes now, T =>
    Outcome.returned (startProgram cmd forkRes now T).1 (startProgram cmd forkRes now T).2
  | .control processId a w killRes blockRes, T =>
    controlProcess processId a.signal a.target w killRes blockRes T
  | .monitor w, T => Outcome.returned (monitorTick w T).1 (monitorTick w T).2
  | .cleanup killRes waitRes, T => cleanupProcesses killRes waitRes T

/-- True for a `controlProcess` call on a tracked id whose liveness check finds
the process already exited. -/
def SupervisorOp.findsExited : SupervisorOp → ProcessTable → Bool
  | .control processId _ w _ _, T => (mapAt processId T).isSome && alreadyExited w
  | _, _ => false

/-- No entry of the table has status `"finished"` or `"terminated"`. -/
def NoTerminalStatus (T : ProcessTable) : Prop :=
  ∀ e ∈ T, e.2.status ≠ "finished" ∧ e.2.status ≠ "terminated"

instance (T : ProcessTable) : Decidable (NoTerminalStatus T) :=
  inferInstanceAs (Decidable (∀ e ∈ T, e.2.status ≠ "finished" ∧ e.2.status ≠ "terminated"))

/-! ## The dispatch loop of `processCommands` -/

/-- Modelled from the spec: the deserialized transport message, the type
`MQMessage` of `MqMessage.h`, which is not among the sources. `processCommands`
reads its member `command` and, from `parameters`, the values stored under
`"ProgramPath"` and `"Args"`; each is `none` when the key is missing. -/
structure MQMessage where
  command : String := ""
  programPath : Option String := none
  args : Option (List String) := none
deriving DecidableEq, Repr

/-- The three assignments at the top of the loop body of `processCommands`:
`action`, `programPath` and `args` are set from the message (a missing
parameter gives the default passed to `value`); `id` and `processId` are
not assigned. -/
def receiveInto (cmd : Command) (msg : MQMessage) : Command :=
  { cmd with
    action := msg.command
    programPath := msg.programPath.getD ""
    args := msg.args.getD [] }

/-- The call a dispatch step makes, with its arguments; `unknownAction` is the
final `else` branch, which only logs. -/
inductive Invocation where
  | startProgram (cmd : Command)
  | controlProcess (processId : String) (signalVal : Int) (newStatus : String)
  | printStatus (commandId : String)
  | unknownAction (action : String)
deriving DecidableEq, Repr

/-- The `if` / `else if` chain of `processCommands` on `cmd.action`. -/
def route (cmd : Command) : Invocation :=
  if cmd.action = "StartJob" then Invocation.startProgram cmd
  else if cmd.action = "pause" then Invocation.controlProcess cmd.id SIG_PAUSE "paused"
  else if cmd.action = "resume" then Invocation.controlProcess cmd.id SIG_RESUME "running"
  else if cmd.action = "terminate" then
    Invocation.controlProcess cmd.id SIG_TERMINATE "terminated"
  else if cmd.action = "status" then
    Invocation.printStatus (if cmd.id = "" then cmd.processId else cmd.id)
  else Invocation.unknownAction cmd.action

/-- The id a call is made with: `cmd.id` for `startProgram`, the first
argument for `controlProcess` and `printStatus`. -/
def Invocation.id : Invocation → Option String
  | .startProgram cmd => some cmd.id
  | .controlProcess processId _ _ => some processId
  | .printStatus commandId => some commandId
  | .unknownAction _ => none

/-- What `printStatus` writes: that nothing is tracked, that the id is not
found, or the total and one row (id, pid, status, path, running time) per
reported key. -/
inductive StatusReport where
  | noneTracked
  | notFound (total : Nat) (commandId : String)
  | listing (total : Nat) (rows : List (String × Int × String × String × Int))
deriving DecidableEq, Repr

/-- The method `ProcessManager::printStatus`; `now` is the clock reading. The
table is only read. -/
def printStatus (commandId : String) (now : Int) (T : ProcessTable) : StatusReport :=
  if T.isEmpty ∧ commandId = "" then StatusReport.noneTracked
  else if commandId ≠ "" ∧ mapCount commandId T = 0 then
    StatusReport.notFound T.length commandId
  else
    let keys := if commandId = "" then T.map Prod.fst else [commandId]
    StatusReport.listing T.length
      (keys.filterMap (fun c_id =>
        (mapAt c_id T).map (fun p_info =>
          (c_id, p_info.pid, p_info.status, p_info.path, wrap64 (now - p_info.startTime)))))

/-- The answers of the operating system to the calls one dispatch step may
make: the result of `fork`, the clock, the non-blocking `waitpid`, `kill`, and
the blocking `waitpid` (`none` when it never returns). -/
structure OsAnswers where
  forkRes : Int
  now : Int
  w : WaitResult
  killRes : Int
  blockRes : Option Int
deriving DecidableEq, Repr

/-- Executes the call chosen by `route`: its effect on the table and the
operating-system calls it makes. `printStatus` only reads the table (what it
writes is given by `printStatus`) and the unknown-action branch only logs. -/
def Invocation.run : Invocation → OsAnswers → ProcessTable → Outcome
  | .startProgram cmd, os, T =>
    Outcome.returned (CustomCoreManager.startProgram cmd os.forkRes os.now T).1
      (CustomCoreManager.startProgram cmd os.forkRes os.now T).2
  | .controlProcess processId signalVal newStatus, os, T =>
    CustomCoreManager.controlProcess processId signalVal newStatus os.w os.killRes
      os.blockRes T
  | .printStatus _, _, T => Outcome.returned T []
  | .unknownAction _, _, T => Outcome.returned T []

/-- State of the manager between two steps: the local `cmd` of
`processCommands`, which lives across iterations, the table, the calls
dispatched so far (oldest first), and whether the dispatch thread is blocked
for ever inside a call, holding `trackerMutex`. -/
structure ManagerState where
  cmd : Command := {}
  table : ProcessTable := []
  invoked : List Invocation := []
  blocked : Bool := false
deriving DecidableEq, Repr

/-- One iteration of the loop of `processCommands` on a received message. -/
def dispatchStep (s : ManagerState) (msg : MQMessage) (os : OsAnswers) : ManagerState :=
  let cmd := receiveInto s.cmd msg
  { cmd := cmd
    table := ((route cmd).run os s.table).table
    invoked := s.invoked ++ [route cmd]
    blocked := !((route cmd).run os s.table).returns }

/-- What happens next to the manager: the dispatch thread handles a message, or
the monitor thread runs one iteration. Both run under `trackerMutex`. -/
inductive Event where
  | message (msg : MQMessage) (os : OsAnswers)
  | tick (w : WaitResult)
deriving DecidableEq, Repr

/-- Effect of one event on the manager. Once the dispatch thread is blocked
holding the mutex it handles no further message and the monitor cannot touch
the table. -/
def ManagerState.step (s : ManagerState) : Event → ManagerState
  | .message msg os => if s.blocked then s else dispatchStep s msg os
  | .tick w => if s.blocked then s else { s with table := (monitorTick w s.table).1 }

/-- The manager after a sequence of events, from a freshly constructed
`ProcessManager` (empty table) and a default-constructed `Command`. -/
def runEvents (events : List Event) : ManagerState :=
  events.foldl ManagerState.step {}

/-! ## Calls expected from `cleanupProcesses` -/

/-- For the entries of a table in order, numbered from `i`: the `kill` with
`SIG_TERMINATE` on the pid of each, followed by a blocking `waitpid` on that
pid exactly when that `kill` returned 0. -/
def signalAndWait (killRes : Nat → Int) : Nat → ProcessTable → List OsCall
  | _, [] => []
  | i, e :: rest =>
    if killRes i = 0 then
      OsCall.kill e.2.pid SIG_TERMINATE :: OsCall.waitpid e.2.pid 0 ::
        signalAndWait killRes (i + 1) rest
    else
      OsCall.kill e.2.pid SIG_TERMINATE :: signalAndWait killRes (i + 1) rest

/-- True for a `kill` call. -/
def OsCall.isKill : OsCall → Bool
  | .kill _ _ => true
  | _ => false

/-- True for a `waitpid` call. -/
def OsCall.isWait : OsCall → Bool
  | .waitpid _ _ => true
  | _ => false

/-! ## Usage of one core -/

/-- The usage the selection loop computes for an entry of the first snapshot:
defined when the core is also in the second snapshot and `delta_total > 0`,
and then the `double` value of
`100.0 * (delta_total - delta_idle) / delta_total`. -/
def coreUsage (stats2 : StatsMap) (pair1 : Int × CoreStats) : Option Dbl :=
  match mapAt pair1.1 stats2 with
  | none => none
  | some s2 =>
    if deltaTotal pair1.2 s2 > 0 then
      some (usagePercent (deltaTotal pair1.2 s2) (deltaIdle pair1.2 s2))
    else none

/-- The rational value of a `double`. -/
def Dbl.toRat (x : Dbl) : ℚ := (x.num : ℚ) / (x.den : ℚ)

/-- The usage of a core between two samples as the spec writes it, the exact
fraction `100 * (deltaTotal - deltaIdle) / deltaTotal` with
`deltaTotal = total2 - total1` and `deltaIdle = idle2 - idle1`. -/
def exactUsage (s1 s2 : CoreStats) : ℚ :=
  100 * (((s2.total - s1.total : Int) : ℚ) - ((s2.idle - s1.idle : Int) : ℚ)) /
    ((s2.total - s1.total : Int) : ℚ)

/-- Invariant of the selection loop after the entries `done` of the first
snapshot, with state `acc = (least_busy_core, min_usage)`: either nothing is
selected yet, `acc` is the initial `(-1, 100.0)` and no entry so far has a
usage below 100; or `acc` holds the id and the usage of an entry of `done`,
that usage is below 100, strictly below the usage of every entry before it and
at most the usage of every entry after it. -/
def SelectInv (stats2 : StatsMap) (done : StatsMap) (acc : Int × Dbl) : Prop :=
  (acc = (-1, hundred) ∧ ∀ p ∈ done, ∀ u ∈ coreUsage stats2 p, ¬ u.toRat < 100) ∨
  (∃ l₁ s1 l₂, done = l₁ ++ (acc.1, s1) :: l₂ ∧
    coreUsage stats2 (acc.1, s1) = some acc.2 ∧ acc.2.toRat < 100 ∧
    (∀ p ∈ l₁, ∀ u ∈ coreUsage stats2 p, acc.2.toRat < u.toRat) ∧
    (∀ p ∈ l₂, ∀ u ∈ coreUsage stats2 p, acc.2.toRat ≤ u.toRat))

/-! ## Lemmas on `std::map` -/

section StdMapLemmas

variable {κ ν : Type} [DecidableEq κ]

theorem mapCount_eq_zero_iff (k : κ) (m : List (κ × ν)) :
    mapCount k m = 0 ↔ mapAt k m = none := by
  unfold mapCount
  cases h : mapAt k m <;> simp

theorem mapCount_ne_zero_iff (k : κ) (m : List (κ × ν)) :
    mapCount k m ≠ 0 ↔ ∃ v, mapAt k m = some v := by
  unfold mapCount
  cases h : mapAt k m <;> simp

theorem mapAt_mapAssign_self (less : κ → κ → Bool) (k : κ) (v : ν) (m : List (κ × ν)) :
    mapAt k (mapAssign less k v m) = some v := by
  induction m with
  | nil => simp [mapAssign, mapAt]
  | cons e rest ih =>
    obtain ⟨k', v'⟩ := e
    unfold mapAssign
    split
    · simp [mapAt]
    · split
      · simp [mapAt]
      · next h2 =>
        have h3 : ¬ k' = k := fun h => h2 h.symm
        simp [mapAt, h3, ih]

theorem mapAt_mapAssign_of_ne (less : κ → κ → Bool) (k j : κ) (v : ν) (m : List (κ × ν))
    (hne : j ≠ k) : mapAt j (mapAssign less k v m) = mapAt j m := by
  have hkj : ¬ k = j := fun h => hne h.symm
  induction m with
  | nil => simp [mapAssign, mapAt, hkj]
  | cons e rest ih =>
    obtain ⟨k', v'⟩ := e
    unfold mapAssign
    split
    · simp [mapAt, hkj]
    · split
      · next h2 =>
        subst h2
        simp [mapAt, hkj]
      · simp [mapAt, ih]

theorem mapAssign_absent_split (less : κ → κ → Bool) (k : κ) (v : ν) (m : List (κ × ν))
    (habs : mapAt k m = none) :
    ∃ l₁ l₂, m = l₁ ++ l₂ ∧ mapAssign less k v m = l₁ ++ (k, v) :: l₂ := by
  induction m with
  | nil => exact ⟨[], [], rfl, rfl⟩
  | cons e rest ih =>
    obtain ⟨k', v'⟩ := e
    have hk : ¬ k' = k := by
      intro h
      simp [mapAt, h] at habs
    have hrest : mapAt k rest = none := by
      simpa [mapAt, hk] using habs
    unfold mapAssign
    split
    · exact ⟨[], (k', v') :: rest, rfl, rfl⟩
    · have h2 : ¬ k = k' := fun h => hk h.symm
      obtain ⟨l₁, l₂, e₁, e₂⟩ := ih hrest
      refine ⟨(k', v') :: l₁, l₂, by simp [e₁], ?_⟩
      simp [h2, e₂]

theorem mem_mapAssign (less : κ → κ → Bool) (k : κ) (v : ν) (m : List (κ × ν))
    (e : κ × ν) (he : e ∈ mapAssign less k v m) : e = (k, v) ∨ e ∈ m := by
  induction m with
  | nil => simpa [mapAssign] using he
  | cons e' rest ih =>
    obtain ⟨k', v'⟩ := e'
    unfold mapAssign at he
    split at he
    · simpa using he
    · split at he
      · rcases List.mem_cons.mp he with he | he
        · exact Or.inl he
        · exact Or.inr (List.mem_cons_of_mem _ he)
      · rcases List.mem_cons.mp he with he | he
        · exact Or.inr (by rw [he]; exact List.mem_cons_self _ _)
        · rcases ih he with h | h
          · exact Or.inl h
          · exact Or.inr (List.mem_cons_of_mem _ h)

theorem mapAt_mapErase_self (k : κ) (m : List (κ × ν)) : mapAt k (mapErase k m) = none := by
  induction m with
  | nil => rfl
  | cons e rest ih =>
    obtain ⟨k', v'⟩ := e
    by_cases h : k' = k
    · simp [mapErase, h, ih]
    · simp [mapErase, h, mapAt, ih]

theorem mapAt_mapErase_of_ne (k j : κ) (m : List (κ × ν)) (hne : j ≠ k) :
    mapAt j (mapErase k m) = mapAt j m := by
  have hkj : ¬ k = j := fun h => hne h.symm
  induction m with
  | nil => rfl
  | cons e rest ih =>
    obtain ⟨k', v'⟩ := e
    by_cases h : k' = k
    · simp [mapErase, h, mapAt, ih, hkj]
    · simp [mapErase, h, mapAt, ih]

theorem mem_mapErase (k : κ) (m : List (κ × ν)) (e : κ × ν) (he : e ∈ mapErase k m) :
    e ∈ m ∧ e.1 ≠ k := by
  induction m with
  | nil => simp [mapErase] at he
  | cons e' rest ih =>
    obtain ⟨k', v'⟩ := e'
    unfold mapErase at he
    split at he
    · exact ⟨List.mem_cons_of_mem _ (ih he).1, (ih he).2⟩
    · next h =>
      rcases List.mem_cons.mp he with he | he
      · subst he
        exact ⟨List.mem_cons_self _ _, h⟩
      · exact ⟨List.mem_cons_of_mem _ (ih he).1, (ih he).2⟩

theorem mapAt_mapModify_self (k : κ) (f : ν → ν) (m : List (κ × ν)) :
    mapAt k (mapModify k f m) = (mapAt k m).map f := by
  induction m with
  | nil => rfl
  | cons e rest ih =>
    obtain ⟨k', v'⟩ := e
    by_cases h : k' = k
    · simp [mapModify, h, mapAt]
    · simp [mapModify, h, mapAt, ih]

theorem mapAt_mapModify_of_ne (k j : κ) (f : ν → ν) (m : List (κ × ν)) (hne : j ≠ k) :
    mapAt j (mapModify k f m) = mapAt j m := by
  have hkj : ¬ k = j := fun h => hne h.symm
  induction m with
  | nil => rfl
  | cons e rest ih =>
    obtain ⟨k', v'⟩ := e
    by_cases h : k' = k
    · simp [mapModify, h, mapAt, ih, hkj]
    · simp [mapModify, h, mapAt, ih]

theorem length_mapModify (k : κ) (f : ν → ν) (m : List (κ × ν)) :
    (mapModify k f m).length = m.length := by
  induction m with
  | nil => rfl
  | cons e rest ih =>
    obtain ⟨k', v'⟩ := e
    by_cases h : k' = k <;> simp [mapModify, h, ih]

theorem map_fst_mapModify (k : κ) (f : ν → ν) (m : List (κ × ν)) :
    (mapModify k f m).map Prod.fst = m.map Prod.fst := by
  induction m with
  | nil => rfl
  | cons e rest ih =>
    obtain ⟨k', v'⟩ := e
    by_cases h : k' = k <;> simp [mapModify, h, ih]

theorem mem_mapModify (k : κ) (f : ν → ν) (m : List (κ × ν)) (e : κ × ν)
    (he : e ∈ mapModify k f m) : e ∈ m ∨ ∃ v, (k, v) ∈ m ∧ e = (k, f v) := by
  induction m with
  | nil => simp [mapModify] at he
  | cons e' rest ih =>
    obtain ⟨k', v'⟩ := e'
    unfold mapModify at he
    split at he
    · next h =>
      rcases List.mem_cons.mp he with he | he
      · exact Or.inr ⟨v', by rw [h]; exact List.mem_cons_self _ _, by rw [he, h]⟩
      · rcases ih he with h' | ⟨v, hv, hev⟩
        · exact Or.inl (List.mem_cons_of_mem _ h')
        · exact Or.inr ⟨v, List.mem_cons_of_mem _ hv, hev⟩
    · rcases List.mem_cons.mp he with he | he
      · exact Or.inl (by rw [he]; exact List.mem_cons_self _ _)
      · rcases ih he with h' | ⟨v, hv, hev⟩
        · exact Or.inl (List.mem_cons_of_mem _ h')
        · exact Or.inr ⟨v, List.mem_cons_of_mem _ hv, hev⟩

theorem mapErase_mapModify (k : κ) (f : ν → ν) (m : List (κ × ν)) :
    mapErase k (mapModify k f m) = mapErase k m := by
  induction m with
  | nil => rfl
  | cons e rest ih =>
    obtain ⟨k', v'⟩ := e
    by_cases h : k' = k <;> simp [mapErase, mapModify, h, ih]

end StdMapLemmas

/-! ## `startProgram` -/

/-- C1: for every table, every pair of CPU snapshots, every fork outcome and
clock reading, and every command whose `programPath` is empty, `startProgram`
issues no operating-system call at all (in particular no `fork`) and returns
the table exactly as it was, so no entry is created for `cmd.id` and no entry
changes. -/
theorem startProgram_empty_path_no_effect (T : ProcessTable) (_stats1 _stats2 : StatsMap)
    (cmd : Command) (forkRes now : Int) (hpath : cmd.programPath = "") :
    startProgram cmd forkRes now T = (T, []) ∧
      mapAt cmd.id (startProgram cmd forkRes now T).1 = mapAt cmd.id T ∧
      OsCall.fork ∉ (startProgram cmd forkRes now T).2 := by
  have h : startProgram cmd forkRes now T = (T, []) := by
    unfold startProgram
    simp [hpath]
  simp [h]

/-- Witness of C1: an empty-path start of id `job1` on a table tracking `job0`. -/
theorem startProgram_empty_path_no_effect_witness :
    startProgram { id := "job1", action := "StartJob" } 4242 1700000000
        [("job0", { pid := 100, status := "running", path := "/bin/sleep", startTime := 5 })]
      = ([("job0", { pid := 100, status := "running", path := "/bin/sleep", startTime := 5 })], []) :=
  (startProgram_empty_path_no_effect
    [("job0", { pid := 100, status := "running", path := "/bin/sleep", startTime := 5 })]
    [] [] { id := "job1", action := "StartJob" } 4242 1700000000 rfl).1

/-- C2: when the table already contains `cmd.id` and `programPath` is not
empty, `startProgram` issues no operating-system call (no process is spawned)
and returns the table unchanged; the entry found under `cmd.id` afterwards is
the one found before, with the same pid, status, path and startTime. -/
theorem startProgram_duplicate_no_effect (T : ProcessTable) (cmd : Command)
    (forkRes now : Int) (proc : TrackedProcess)
    (hpath : cmd.programPath ≠ "") (hin : mapAt cmd.id T = some proc) :
    mapCount cmd.id T = 1 ∧
      startProgram cmd forkRes now T = (T, []) ∧
      mapAt cmd.id (startProgram cmd forkRes now T).1 = some proc := by
  have hc : mapCount cmd.id T = 1 := by simp [mapCount, hin]
  have h : startProgram cmd forkRes now T = (T, []) := by
    unfold startProgram
    simp [hpath, hc]
  simp [h, hin, hc]

/-- Witness of C2: a second start of the tracked id `job0`. -/
theorem startProgram_duplicate_no_effect_witness :
    mapCount "job0"
        [("job0", ({ pid := 100, status := "paused", path := "/bin/sleep", startTime := 5 } :
          TrackedProcess))] = 1 ∧
      startProgram { id := "job0", programPath := "/bin/ls" } 4242 1700000000
          [("job0", { pid := 100, status := "paused", path := "/bin/sleep", startTime := 5 })]
        = ([("job0", { pid := 100, status := "paused", path := "/bin/sleep", startTime := 5 })],
            []) ∧
      mapAt "job0" (startProgram { id := "job0", programPath := "/bin/ls" } 4242 1700000000
          [("job0", { pid := 100, status := "paused", path := "/bin/sleep", startTime := 5 })]).1
        = some { pid := 100, status := "paused", path := "/bin/sleep", startTime := 5 } :=
  startProgram_duplicate_no_effect
    [("job0", { pid := 100, status := "paused", path := "/bin/sleep", startTime := 5 })]
    { id := "job0", programPath := "/bin/ls" } 4242 1700000000
    { pid := 100, status := "paused", path := "/bin/sleep", startTime := 5 }
    (by decide) rfl

/-- C3: when the table does not contain `cmd.id`, `programPath` is not empty
and `fork` returns `p > 0` at clock reading `now`, `startProgram` calls `fork`
once and the new table is the old one with exactly one entry inserted: the
entry keyed `cmd.id` with pid `p`, status `"running"`, path `cmd.programPath`
and startTime `now`. Every other key maps to what it mapped to before. -/
theorem startProgram_success_inserts (T : ProcessTable) (cmd : Command) (p now : Int)
    (hpath : cmd.programPath ≠ "") (habs : mapCount cmd.id T = 0) (hp : 0 < p) :
    (startProgram cmd p now T).2 = [OsCall.fork] ∧
      mapAt cmd.id (startProgram cmd p now T).1
        = some { pid := p, status := "running", path := cmd.programPath, startTime := now } ∧
      (∀ k, k ≠ cmd.id → mapAt k (startProgram cmd p now T).1 = mapAt k T) ∧
      (∃ l₁ l₂, T = l₁ ++ l₂ ∧
        (startProgram cmd p now T).1 = l₁ ++
          (cmd.id, { pid := p, status := "running", path := cmd.programPath,
                     startTime := now }) :: l₂) ∧
      (startProgram cmd p now T).1.length = T.length + 1 := by
  have hp1 : ¬ p = -1 := by omega
  have hp0 : ¬ p = 0 := by omega
  have h : startProgram cmd p now T =
      (mapAssign stringLess cmd.id
        { pid := p, status := "running", path := cmd.programPath, startTime := now } T,
        [OsCall.fork]) := by
    unfold startProgram
    simp [hpath, habs, hp1, hp0]
  have hnone : mapAt cmd.id T = none := (mapCount_eq_zero_iff _ _).mp habs
  obtain ⟨l₁, l₂, e₁, e₂⟩ := mapAssign_absent_split stringLess cmd.id
    ({ pid := p, status := "running", path := cmd.programPath, startTime := now } :
      TrackedProcess) T hnone
  rw [h]
  refine ⟨rfl, mapAt_mapAssign_self _ _ _ _, ?_, ⟨l₁, l₂, e₁, e₂⟩, ?_⟩
  · intro k hk
    exact mapAt_mapAssign_of_ne _ _ _ _ _ hk
  · show (mapAssign stringLess cmd.id _ T).length = T.length + 1
    rw [e₂]
    conv_rhs => rw [e₁]
    simp
    omega

/-- Witness of C3: starting `job1` with fork result 4242 on a table tracking
`job0` and `job2`. -/
theorem startProgram_success_inserts_witness :
    (startProgram { id := "job1", programPath := "/bin/ls" } 4242 1700000000
        [("job0", { pid := 100, status := "running", path := "/bin/sleep", startTime := 5 }),
         ("job2", { pid := 102, status := "paused", path := "/bin/cat", startTime := 7 })]).1
      = [("job0", { pid := 100, status := "running", path := "/bin/sleep", startTime := 5 }),
         ("job1", { pid := 4242, status := "running", path := "/bin/ls",
                    startTime := 1700000000 }),
         ("job2", { pid := 102, status := "paused", path := "/bin/cat", startTime := 7 })] ∧
      mapAt "job1" (startProgram { id := "job1", programPath := "/bin/ls" } 4242 1700000000
        [("job0", { pid := 100, status := "running", path := "/bin/sleep", startTime := 5 }),
         ("job2", { pid := 102, status := "paused", path := "/bin/cat", startTime := 7 })]).1
      = some { pid := 4242, status := "running", path := "/bin/ls", startTime := 1700000000 } :=
  ⟨by decide,
    (startProgram_success_inserts
      [("job0", { pid := 100, status := "running", path := "/bin/sleep", startTime := 5 }),
       ("job2", { pid := 102, status := "paused", path := "/bin/cat", startTime := 7 })]
      { id := "job1", programPath := "/bin/ls" } 4242 1700000000
      (by decide) (by decide) (by decide)).2.1⟩

/-! ## `controlProcess` -/

theorem controlProcess_absent (processId : String) (signalVal : Int) (newStatus : String)
    (w : WaitResult) (killRes : Int) (blockRes : Option Int) (T : ProcessTable)
    (habs : mapAt processId T = none) :
    controlProcess processId signalVal newStatus w killRes blockRes T =
      Outcome.returned T [] := by
  unfold controlProcess
  simp [habs]

theorem controlProcess_terminate_delivered (processId : String) (w : WaitResult)
    (killRes r : Int) (T : ProcessTable) (proc : TrackedProcess)
    (hin : mapAt processId T = some proc) (hlive : alreadyExited w = false)
    (hkill : killRes ≠ -1) :
    controlProcess processId SIG_TERMINATE "terminated" w killRes (some r) T =
      Outcome.returned (mapErase processId T)
        [OsCall.waitpid proc.pid WNOHANG, OsCall.kill proc.pid SIG_TERMINATE,
          OsCall.waitpid proc.pid 0] := by
  unfold controlProcess
  simp [hin, hlive, hkill, mapErase_mapModify]

theorem controlProcess_terminate_blocked (processId : String) (w : WaitResult)
    (killRes : Int) (T : ProcessTable) (proc : TrackedProcess)
    (hin : mapAt processId T = some proc) (hlive : alreadyExited w = false)
    (hkill : killRes ≠ -1) :
    controlProcess processId SIG_TERMINATE "terminated" w killRes none T =
      Outcome.blocked (mapModify processId (fun p => { p with status := "terminated" }) T)
        [OsCall.waitpid proc.pid WNOHANG, OsCall.kill proc.pid SIG_TERMINATE,
          OsCall.waitpid proc.pid 0] := by
  unfold controlProcess
  simp [hin, hlive, hkill]

theorem controlProcess_delivered_keeps (processId : String) (signalVal : Int)
    (newStatus : String) (w : WaitResult) (killRes : Int) (blockRes : Option Int)
    (T : ProcessTable) (proc : TrackedProcess) (hin : mapAt processId T = some proc)
    (hlive : alreadyExited w = false) (hkill : killRes ≠ -1)
    (hstatus : newStatus ≠ "terminated") :
    controlProcess processId signalVal newStatus w killRes blockRes T =
      Outcome.returned (mapModify processId (fun p => { p with status := newStatus }) T)
        [OsCall.waitpid proc.pid WNOHANG, OsCall.kill proc.pid signalVal] := by
  unfold controlProcess
  simp [hin, hlive, hkill, hstatus]

/-- C4, counterexample: the table contains `job1`, the liveness check reports
nothing and `kill` delivers the termination signal (returns 0), but the
blocking `waitpid` never returns, as for the stopped process of a paused
entry, where the signal stays pending. `controlProcess` then does not return:
it stays in that call, and the table it holds still contains `job1`. -/
theorem controlProcess_terminate_blocks :
    mapAt "job1"
        [("job0", ({ pid := 100, status := "running", path := "/bin/sleep", startTime := 5 } :
            TrackedProcess)),
         ("job1", { pid := 101, status := "paused", path := "/bin/ls", startTime := 6 })]
      = some { pid := 101, status := "paused", path := "/bin/ls", startTime := 6 } ∧
    alreadyExited ⟨0, 0⟩ = false ∧
    controlProcess "job1" SIG_TERMINATE "terminated" ⟨0, 0⟩ 0 none
        [("job0", { pid := 100, status := "running", path := "/bin/sleep", startTime := 5 }),
         ("job1", { pid := 101, status := "paused", path := "/bin/ls", startTime := 6 })]
      = Outcome.blocked
          [("job0", { pid := 100, status := "running", path := "/bin/sleep", startTime := 5 }),
           ("job1", { pid := 101, status := "terminated", path := "/bin/ls", startTime := 6 })]
          [OsCall.waitpid 101 WNOHANG, OsCall.kill 101 SIG_TERMINATE, OsCall.waitpid 101 0] ∧
    (controlProcess "job1" SIG_TERMINATE "terminated" ⟨0, 0⟩ 0 none
        [("job0", { pid := 100, status := "running", path := "/bin/sleep", startTime := 5 }),
         ("job1", { pid := 101, status := "paused", path := "/bin/ls", startTime := 6 })]).returns
      = false ∧
    mapCount "job1" (controlProcess "job1" SIG_TERMINATE "terminated" ⟨0, 0⟩ 0 none
        [("job0", { pid := 100, status := "running", path := "/bin/sleep", startTime := 5 }),
         ("job1", { pid := 101, status := "paused", path := "/bin/ls", startTime := 6 })]).table
      = 1 := by
  decide

/-- C4, amended: when the table contains `id`, the non-blocking liveness check
reports nothing and `kill` delivers the termination signal, then
`controlProcess(id, SIG_TERMINATE, "terminated")` sends the signal to the
tracked pid and waits for the process to exit. If that wait returns, the call
returns with a table that no longer contains `id` and in which every other key
maps to what it mapped to before; a second such call on that table, whatever
the operating system would answer, makes no call to it (no liveness check, no
signal) and returns the table unchanged. If the wait never returns, the call
does not return and the entry is still in the table it holds. -/
theorem controlProcess_terminate_removes (T : ProcessTable) (id : String)
    (proc : TrackedProcess) (w : WaitResult) (killRes : Int)
    (hin : mapAt id T = some proc) (hlive : alreadyExited w = false) (hkill : killRes = 0) :
    (∀ r : Int,
      (controlProcess id SIG_TERMINATE "terminated" w killRes (some r) T).returns = true ∧
      (controlProcess id SIG_TERMINATE "terminated" w killRes (some r) T).calls =
        [OsCall.waitpid proc.pid WNOHANG, OsCall.kill proc.pid SIG_TERMINATE,
          OsCall.waitpid proc.pid 0] ∧
      mapCount id (controlProcess id SIG_TERMINATE "terminated" w killRes (some r) T).table
        = 0 ∧
      (∀ k, k ≠ id →
        mapAt k (controlProcess id SIG_TERMINATE "terminated" w killRes (some r) T).table
          = mapAt k T) ∧
      (∀ e, e ∈ (controlProcess id SIG_TERMINATE "terminated" w killRes (some r) T).table →
        e ∈ T) ∧
      (∀ (w2 : WaitResult) (killRes2 : Int) (blockRes2 : Option Int),
        controlProcess id SIG_TERMINATE "terminated" w2 killRes2 blockRes2
            (controlProcess id SIG_TERMINATE "terminated" w killRes (some r) T).table =
          Outcome.returned
            (controlProcess id SIG_TERMINATE "terminated" w killRes (some r) T).table [])) ∧
    ((controlProcess id SIG_TERMINATE "terminated" w killRes none T).returns = false ∧
      (controlProcess id SIG_TERMINATE "terminated" w killRes none T).calls =
        [OsCall.waitpid proc.pid WNOHANG, OsCall.kill proc.pid SIG_TERMINATE,
          OsCall.waitpid proc.pid 0] ∧
      mapCount id (controlProcess id SIG_TERMINATE "terminated" w killRes none T).table
        = 1) := by
  have hkill : killRes ≠ -1 := by omega
  constructor
  · intro r
    rw [controlProcess_terminate_delivered id w killRes r T proc hin hlive hkill]
    refine ⟨rfl, rfl, ?_, ?_, ?_, ?_⟩
    · exact (mapCount_eq_zero_iff _ _).mpr (mapAt_mapErase_self _ _)
    · intro k hk
      exact mapAt_mapErase_of_ne _ _ _ hk
    · intro e he
      exact (mem_mapErase _ _ _ he).1
    · intro w2 killRes2 blockRes2
      exact controlProcess_absent _ _ _ _ _ _ _ (mapAt_mapErase_self _ _)
  · rw [controlProcess_terminate_blocked id w killRes T proc hin hlive hkill]
    refine ⟨rfl, rfl, ?_⟩
    show mapCount id (mapModify id _ T) = 1
    simp [mapCount, mapAt_mapModify_self, hin]

/-- Witness of C4, amended: terminating `job1` in a table of three entries, the
wait returning. -/
theorem controlProcess_terminate_removes_witness :
    (controlProcess "job1" SIG_TERMINATE "terminated" ⟨0, 0⟩ 0 (some 101)
        [("job0", { pid := 100, status := "running", path := "/bin/sleep", startTime := 5 }),
         ("job1", { pid := 101, status := "running", path := "/bin/ls", startTime := 6 }),
         ("job2", { pid := 102, status := "running", path := "/bin/cat", startTime := 7 })])
      = Outcome.returned
          [("job0", { pid := 100, status := "running", path := "/bin/sleep", startTime := 5 }),
           ("job2", { pid := 102, status := "running", path := "/bin/cat", startTime := 7 })]
          [OsCall.waitpid 101 WNOHANG, OsCall.kill 101 SIG_TERMINATE, OsCall.waitpid 101 0] ∧
      mapCount "job1" (controlProcess "job1" SIG_TERMINATE "terminated" ⟨0, 0⟩ 0 (some 101)
        [("job0", { pid := 100, status := "running", path := "/bin/sleep", startTime := 5 }),
         ("job1", { pid := 101, status := "running", path := "/bin/ls", startTime := 6 }),
         ("job2", { pid := 102, status := "running", path := "/bin/cat", startTime := 7 })]).table
        = 0 :=
  ⟨by decide,
    ((controlProcess_terminate_removes
      [("job0", { pid := 100, status := "running", path := "/bin/sleep", startTime := 5 }),
       ("job1", { pid := 101, status := "running", path := "/bin/ls", startTime := 6 }),
       ("job2", { pid := 102, status := "running", path := "/bin/cat", startTime := 7 })]
      "job1" { pid := 101, status := "running", path := "/bin/ls", startTime := 6 }
      ⟨0, 0⟩ 0 (by decide) (by decide) rfl).1 101).2.2.1⟩

/-- C6: when the table contains `id` with status `"running"`, the liveness
check reports nothing and `kill` delivers the stop signal, then
`controlProcess(id, SIG_PAUSE, "paused")` sends `SIG_PAUSE` to the tracked pid,
makes no blocking call and returns with a table that still contains `id`, with
status `"paused"` and the same pid, path and startTime; every other key maps
to what it mapped to before, and the keys of the table, in order, are the
same. -/
theorem controlProcess_pause_running (T : ProcessTable) (id : String)
    (proc : TrackedProcess) (w : WaitResult) (killRes : Int) (blockRes : Option Int)
    (hin : mapAt id T = some proc) (hrun : proc.status = "running")
    (hlive : alreadyExited w = false) (hkill : killRes = 0) :
    (controlProcess id SIG_PAUSE "paused" w killRes blockRes T).returns = true ∧
      (controlProcess id SIG_PAUSE "paused" w killRes blockRes T).calls =
        [OsCall.waitpid proc.pid WNOHANG, OsCall.kill proc.pid SIG_PAUSE] ∧
      mapAt id (controlProcess id SIG_PAUSE "paused" w killRes blockRes T).table =
        some { pid := proc.pid, status := "paused", path := proc.path,
               startTime := proc.startTime } ∧
      (∀ k, k ≠ id →
        mapAt k (controlProcess id SIG_PAUSE "paused" w killRes blockRes T).table
          = mapAt k T) ∧
      (controlProcess id SIG_PAUSE "paused" w killRes blockRes T).table.map Prod.fst
        = T.map Prod.fst ∧
      proc.status ≠ "paused" := by
  have hk : killRes ≠ -1 := by omega
  rw [controlProcess_delivered_keeps id SIG_PAUSE "paused" w killRes blockRes T proc hin hlive
    hk (by decide)]
  refine ⟨rfl, rfl, ?_, ?_, map_fst_mapModify _ _ _, ?_⟩
  · show mapAt id (mapModify id _ T) = _
    rw [mapAt_mapModify_self, hin]
    rfl
  · intro k hk'
    exact mapAt_mapModify_of_ne _ _ _ _ hk'
  · rw [hrun]
    decide

/-- Witness of C6: pausing the running `job1`. -/
theorem controlProcess_pause_running_witness :
    (controlProcess "job1" SIG_PAUSE "paused" ⟨0, 0⟩ 0 none
        [("job0", { pid := 100, status := "running", path := "/bin/sleep", startTime := 5 }),
         ("job1", { pid := 101, status := "running", path := "/bin/ls", startTime := 6 })])
      = Outcome.returned
          [("job0", { pid := 100, status := "running", path := "/bin/sleep", startTime := 5 }),
           ("job1", { pid := 101, status := "paused", path := "/bin/ls", startTime := 6 })]
          [OsCall.waitpid 101 WNOHANG, OsCall.kill 101 SIG_PAUSE] ∧
      mapAt "job1" (controlProcess "job1" SIG_PAUSE "paused" ⟨0, 0⟩ 0 none
        [("job0", { pid := 100, status := "running", path := "/bin/sleep", startTime := 5 }),
         ("job1", { pid := 101, status := "running", path := "/bin/ls", startTime := 6 })]).table
        = some { pid := 101, status := "paused", path := "/bin/ls", startTime := 6 } :=
  ⟨by decide,
    (controlProcess_pause_running
      [("job0", { pid := 100, status := "running", path := "/bin/sleep", startTime := 5 }),
       ("job1", { pid := 101, status := "running", path := "/bin/ls", startTime := 6 })]
      "job1" { pid := 101, status := "running", path := "/bin/ls", startTime := 6 }
      ⟨0, 0⟩ 0 none (by decide) rfl (by decide) rfl).2.2.1⟩

/-- C7: when `id` is not in the table, `controlProcess(id, signal, status)`,
for every signal value, every target status and whatever the operating system
would answer, makes no call to it (no liveness check, no signal) and returns
the table unchanged; `id` is still absent afterwards. -/
theorem controlProcess_not_found_no_effect (T : ProcessTable) (id : String)
    (signalVal : Int) (newStatus : String) (w : WaitResult) (killRes : Int)
    (blockRes : Option Int) (habs : mapCount id T = 0) :
    controlProcess id signalVal newStatus w killRes blockRes T = Outcome.returned T [] ∧
      mapCount id (controlProcess id signalVal newStatus w killRes blockRes T).table = 0 := by
  have h := controlProcess_absent id signalVal newStatus w killRes blockRes T
    ((mapCount_eq_zero_iff _ _).mp habs)
  rw [h]
  exact ⟨rfl, habs⟩

/-- Witness of C7: pausing the unknown id `ghost`. -/
theorem controlProcess_not_found_no_effect_witness :
    controlProcess "ghost" SIG_PAUSE "paused" ⟨100, 0⟩ 0 none
        [("job0", { pid := 100, status := "running", path := "/bin/sleep", startTime := 5 })]
      = Outcome.returned
          [("job0", { pid := 100, status := "running", path := "/bin/sleep", startTime := 5 })]
          [] :=
  (controlProcess_not_found_no_effect
    [("job0", { pid := 100, status := "running", path := "/bin/sleep", startTime := 5 })]
    "ghost" SIG_PAUSE "paused" ⟨100, 0⟩ 0 none (by decide)).1

/-! ## Terminal statuses -/

theorem controlProcess_exited (processId : String) (signalVal : Int) (newStatus : String)
    (w : WaitResult) (killRes : Int) (blockRes : Option Int) (T : ProcessTable)
    (proc : TrackedProcess)
    (hin : mapAt processId T = some proc) (hexit : alreadyExited w = true) :
    controlProcess processId signalVal newStatus w killRes blockRes T =
      Outcome.returned (mapModify processId (fun p => { p with status := "finished" }) T)
        [OsCall.waitpid proc.pid WNOHANG] := by
  unfold controlProcess
  simp [hin, hexit]

theorem controlProcess_kill_failed (processId : String) (signalVal : Int)
    (newStatus : String) (w : WaitResult) (blockRes : Option Int) (T : ProcessTable)
    (proc : TrackedProcess)
    (hin : mapAt processId T = some proc) (hlive : alreadyExited w = false) :
    controlProcess processId signalVal newStatus w (-1) blockRes T =
      Outcome.returned T [OsCall.waitpid proc.pid WNOHANG, OsCall.kill proc.pid signalVal] := by
  unfold controlProcess
  simp [hin, hlive]

theorem mem_eraseReaped (pid : Int) (T : ProcessTable) (e : String × TrackedProcess)
    (he : e ∈ eraseReaped pid T) : e ∈ T ∧ e.2.pid ≠ pid := by
  induction T with
  | nil => simp [eraseReaped] at he
  | cons e' rest ih =>
    unfold eraseReaped at he
    split at he
    · exact ⟨List.mem_cons_of_mem _ (ih he).1, (ih he).2⟩
    · next h =>
      rcases List.mem_cons.mp he with he | he
      · subst he
        exact ⟨List.mem_cons_self _ _, h⟩
      · exact ⟨List.mem_cons_of_mem _ (ih he).1, (ih he).2⟩

theorem mem_controlProcess_live (processId : String) (a : ControlAction) (w : WaitResult)
    (killRes : Int) (blockRes : Option Int) (T : ProcessTable)
    (hlive : alreadyExited w = false)
    (hret : (controlProcess processId a.signal a.target w killRes blockRes T).returns = true)
    (e : String × TrackedProcess)
    (he : e ∈ (controlProcess processId a.signal a.target w killRes blockRes T).table) :
    e ∈ T ∨ (a ≠ ControlAction.terminate ∧ e.2.status = a.target) := by
  cases hat : mapAt processId T with
  | none =>
    rw [controlProcess_absent _ _ _ _ _ _ _ hat] at he
    exact Or.inl he
  | some proc =>
    by_cases hk : killRes = -1
    · subst hk
      rw [controlProcess_kill_failed _ _ _ _ _ _ proc hat hlive] at he
      exact Or.inl he
    · cases a with
      | terminate =>
        cases blockRes with
        | none =>
          have hb := controlProcess_terminate_blocked processId w killRes T proc hat hlive hk
          have hret' : (controlProcess processId SIG_TERMINATE "terminated" w killRes none
            T).returns = true := hret
          rw [hb] at hret'
          simp at hret'
        | some r =>
          have hd := controlProcess_terminate_delivered processId w killRes r T proc hat
            hlive hk
          have he' : e ∈ (controlProcess processId SIG_TERMINATE "terminated" w killRes
            (some r) T).table := he
          rw [hd] at he'
          exact Or.inl (mem_mapErase _ _ _ he').1
      | pause =>
        have hd := controlProcess_delivered_keeps processId SIG_PAUSE "paused" w killRes
          blockRes T proc hat hlive hk (by decide)
        have he' : e ∈ (controlProcess processId SIG_PAUSE "paused" w killRes blockRes
          T).table := he
        rw [hd] at he'
        rcases mem_mapModify _ _ _ _ he' with h | ⟨v, _, hv⟩
        · exact Or.inl h
        · exact Or.inr ⟨by decide, by rw [hv]; rfl⟩
      | resume =>
        have hd := controlProcess_delivered_keeps processId SIG_RESUME "running" w killRes
          blockRes T proc hat hlive hk (by decide)
        have he' : e ∈ (controlProcess processId SIG_RESUME "running" w killRes blockRes
          T).table := he
        rw [hd] at he'
        rcases mem_mapModify _ _ _ _ he' with h | ⟨v, _, hv⟩
        · exact Or.inl h
        · exact Or.inr ⟨by decide, by rw [hv]; rfl⟩

theorem mem_startProgram (cmd : Command) (forkRes now : Int) (T : ProcessTable)
    (e : String × TrackedProcess) (he : e ∈ (startProgram cmd forkRes now T).1) :
    e ∈ T ∨ e.2.status = "running" := by
  unfold startProgram at he
  split at he
  · exact Or.inl he
  · split at he
    · exact Or.inl he
    · split at he
      · exact Or.inl he
      · split at he
        · exact Or.inl he
        · rcases mem_mapAssign _ _ _ _ _ he with h | h
          · exact Or.inr (by rw [h])
          · exact Or.inl h

theorem mem_monitorTick (w : WaitResult) (T : ProcessTable) (e : String × TrackedProcess)
    (he : e ∈ (monitorTick w T).1) : e ∈ T := by
  unfold monitorTick at he
  split at he
  · exact (mem_eraseReaped _ _ _ he).1
  · exact he

theorem mem_cleanupProcesses (killRes : Nat → Int) (waitRes : Nat → Option Int)
    (T : ProcessTable) (e : String × TrackedProcess)
    (he : e ∈ (cleanupProcesses killRes waitRes T).table) : e ∈ T := by
  unfold cleanupProcesses at he
  split at he
  · exact he
  · split at he
    · simp at he
    · exact he

/-- C5, counterexample: on a table whose single entry is `"running"`, a
`controlProcess` call whose liveness check finds the process exited (`waitpid`
returned the pid with an exit status of 0) returns and leaves the entry in the
table with status `"finished"`. -/
theorem controlProcess_exited_entry_stays :
    NoTerminalStatus
        [("job0", { pid := 100, status := "running", path := "/bin/sleep", startTime := 5 })] ∧
      controlProcess "job0" SIG_PAUSE "paused" ⟨100, 0⟩ 0 none
          [("job0", { pid := 100, status := "running", path := "/bin/sleep", startTime := 5 })]
        = Outcome.returned
            [("job0", { pid := 100, status := "finished", path := "/bin/sleep",
                        startTime := 5 })]
            [OsCall.waitpid 100 WNOHANG] ∧
      ¬ NoTerminalStatus
        (controlProcess "job0" SIG_PAUSE "paused" ⟨100, 0⟩ 0 none
          [("job0", { pid := 100, status := "running", path := "/bin/sleep",
                      startTime := 5 })]).table := by
  decide

/-- C5, amended: after any supervisor operation (`startProgram`,
`controlProcess` with one of the three targets of the dispatch loop, a monitor
tick, `cleanupProcesses`) on a table in which no entry has status `"finished"`
or `"terminated"`, that is once the operation has returned, no entry of the
resulting table has status `"terminated"`, and none has status `"finished"`
unless the operation is a `controlProcess` call on a tracked id whose liveness
check finds the process already exited. That call returns, sends no signal and
keeps the entry, with status `"finished"` and its other fields as they were;
every other key maps to what it mapped to before. -/
theorem supervisorOp_terminal_status (op : SupervisorOp) (T : ProcessTable)
    (h : NoTerminalStatus T) :
    ((op.run T).returns = true → ∀ e ∈ (op.run T).table, e.2.status ≠ "terminated") ∧
      ((op.run T).returns = true → op.findsExited T = false →
        NoTerminalStatus (op.run T).table) ∧
      (∀ id a w killRes blockRes proc, op = SupervisorOp.control id a w killRes blockRes →
        mapAt id T = some proc → alreadyExited w = true →
          (op.run T).returns = true ∧
          (op.run T).calls = [OsCall.waitpid proc.pid WNOHANG] ∧
          mapAt id (op.run T).table =
            some { pid := proc.pid, status := "finished", path := proc.path,
                   startTime := proc.startTime } ∧
          (∀ k, k ≠ id → mapAt k (op.run T).table = mapAt k T)) := by
  have hsafe : (op.run T).returns = true → op.findsExited T = false →
      NoTerminalStatus (op.run T).table := by
    intro hret hf e he
    cases op with
    | start cmd forkRes now =>
      rcases mem_startProgram cmd forkRes now T e he with h1 | h1
      · exact h e h1
      · rw [h1]
        decide
    | control processId a w killRes blockRes =>
      cases hat : mapAt processId T with
      | none =>
        have he1 : e ∈ (controlProcess processId a.signal a.target w killRes blockRes
          T).table := he
        rw [controlProcess_absent _ _ _ _ _ _ _ hat] at he1
        exact h e he1
      | some proc =>
        have hlive : alreadyExited w = false := by
          simpa [SupervisorOp.findsExited, hat] using hf
        rcases mem_controlProcess_live processId a w killRes blockRes T hlive hret e he
          with h1 | ⟨h1, h2⟩
        · exact h e h1
        · rw [h2]
          cases a with
          | terminate => exact absurd rfl h1
          | pause => decide
          | resume => decide
    | monitor w => exact h e (mem_monitorTick w T e he)
    | cleanup killRes waitRes => exact h e (mem_cleanupProcesses killRes waitRes T e he)
  refine ⟨?_, hsafe, ?_⟩
  · intro hret e he
    cases hf : op.findsExited T with
    | false => exact (hsafe hret hf e he).2
    | true =>
      cases op with
      | control processId a w killRes blockRes =>
        cases hat : mapAt processId T with
        | none => simp [SupervisorOp.findsExited, hat] at hf
        | some proc =>
          have hexit : alreadyExited w = true := by
            simpa [SupervisorOp.findsExited, hat] using hf
          have he1 : e ∈ (controlProcess processId a.signal a.target w killRes blockRes
            T).table := he
          rw [controlProcess_exited _ _ _ _ _ _ _ proc hat hexit] at he1
          rcases mem_mapModify _ _ _ _ he1 with h1 | ⟨v, _, hv⟩
          · exact (h e h1).2
          · rw [hv]
            show ("finished" : String) ≠ "terminated"
            decide
      | start cmd forkRes now => simp [SupervisorOp.findsExited] at hf
      | monitor w => simp [SupervisorOp.findsExited] at hf
      | cleanup killRes waitRes => simp [SupervisorOp.findsExited] at hf
  · intro id a w killRes blockRes proc hop hat hexit
    subst hop
    show (controlProcess id a.signal a.target w killRes blockRes T).returns = true ∧
      (controlProcess id a.signal a.target w killRes blockRes T).calls = _ ∧
      mapAt id (controlProcess id a.signal a.target w killRes blockRes T).table = _ ∧
      ∀ k, k ≠ id →
        mapAt k (controlProcess id a.signal a.target w killRes blockRes T).table = mapAt k T
    rw [controlProcess_exited _ _ _ _ _ _ _ proc hat hexit]
    refine ⟨rfl, rfl, ?_, ?_⟩
    · show mapAt id (mapModify id _ T) = _
      rw [mapAt_mapModify_self, hat]
      rfl
    · intro k hk
      exact mapAt_mapModify_of_ne _ _ _ _ hk

/-- Witness of C5, amended: terminating a running entry, the process being
alive, the signal delivered and the wait returning, leaves no terminal status
behind. -/
theorem supervisorOp_terminal_status_witness :
    NoTerminalStatus
        [("job0", { pid := 100, status := "running", path := "/bin/sleep", startTime := 5 }),
         ("job1", { pid := 101, status := "paused", path := "/bin/ls", startTime := 6 })] ∧
      NoTerminalStatus
        ((SupervisorOp.control "job0" ControlAction.terminate ⟨0, 0⟩ 0 (some 100)).run
          [("job0", { pid := 100, status := "running", path := "/bin/sleep", startTime := 5 }),
           ("job1", { pid := 101, status := "paused", path := "/bin/ls", startTime := 6 })]).table :=
  ⟨by decide,
    (supervisorOp_terminal_status
      (SupervisorOp.control "job0" ControlAction.terminate ⟨0, 0⟩ 0 (some 100))
      [("job0", { pid := 100, status := "running", path := "/bin/sleep", startTime := 5 }),
       ("job1", { pid := 101, status := "paused", path := "/bin/ls", startTime := 6 })]
      (by decide)).2.1 (by decide) (by decide)⟩

/-! ## `find_least_busy_core` -/

theorem selectStep_skip (stats2 : StatsMap) (acc : Int × Dbl) (pair1 : Int × CoreStats)
    (h : ∀ s2 ∈ mapAt pair1.1 stats2, deltaTotal pair1.2 s2 ≤ 0) :
    selectStep stats2 acc pair1 = acc := by
  unfold selectStep
  cases hat : mapAt pair1.1 stats2 with
  | none => simp only [hat]
  | some s2 =>
    have hle : deltaTotal pair1.2 s2 ≤ 0 := h s2 (by rw [hat]; rfl)
    have hnot : ¬ deltaTotal pair1.2 s2 > 0 := by omega
    simp only [hat, hnot, if_false]

theorem foldl_selectStep_skip (stats1 stats2 : StatsMap) (acc : Int × Dbl)
    (h : ∀ p ∈ stats1, ∀ s2 ∈ mapAt p.1 stats2, deltaTotal p.2 s2 ≤ 0) :
    stats1.foldl (selectStep stats2) acc = acc := by
  induction stats1 generalizing acc with
  | nil => rfl
  | cons p rest ih =>
    rw [List.foldl_cons, selectStep_skip stats2 acc p (h p (List.mem_cons_self _ _))]
    exact ih acc (fun q hq => h q (List.mem_cons_of_mem _ hq))

theorem selectLeastBusy_no_usable_delta (stats1 stats2 : StatsMap)
    (h : ∀ p ∈ stats1, ∀ s2 ∈ mapAt p.1 stats2, deltaTotal p.2 s2 ≤ 0) :
    selectLeastBusy stats1 stats2 = -1 := by
  unfold selectLeastBusy
  rw [foldl_selectStep_skip stats1 stats2 _ h]

/-- C8, the code at a failing input: both cores are fully busy between the two
samples (idle ticks do not advance, total advances by 200), so both have a
usable delta and a usage of exactly 100.0; the comparison with the initial
`min_usage = 100.0` is strict, no core is selected and the result is -1, both
for the selection loop and for `find_least_busy_core` on the two files. On the
sample of the spec (usages 75 and 5) the result is core 1. -/
theorem find_least_busy_core_fully_busy :
    deltaTotal ⟨1000, 500⟩ ⟨1200, 500⟩ = 200 ∧ deltaIdle ⟨1000, 500⟩ ⟨1200, 500⟩ = 0 ∧
      deltaTotal ⟨1000, 900⟩ ⟨1200, 900⟩ = 200 ∧ deltaIdle ⟨1000, 900⟩ ⟨1200, 900⟩ = 0 ∧
      usagePercent 200 0 = ⟨100 * 2 ^ 46, -46⟩ ∧
      Dbl.lt (usagePercent 200 0) hundred = false ∧
      selectLeastBusy [(0, ⟨1000, 500⟩), (1, ⟨1000, 900⟩)]
        [(0, ⟨1200, 500⟩), (1, ⟨1200, 900⟩)] = -1 ∧
      read_cpu_stats (some ["cpu  600 0 0 1400", "cpu0 500 0 0 500", "cpu1 100 0 0 900"])
        = (true, [(0, ⟨1000, 500⟩), (1, ⟨1000, 900⟩)]) ∧
      read_cpu_stats (some ["cpu  1000 0 0 1400", "cpu0 700 0 0 500", "cpu1 300 0 0 900"])
        = (true, [(0, ⟨1200, 500⟩), (1, ⟨1200, 900⟩)]) ∧
      find_least_busy_core
        (some ["cpu  600 0 0 1400", "cpu0 500 0 0 500", "cpu1 100 0 0 900"])
        (some ["cpu  1000 0 0 1400", "cpu0 700 0 0 500", "cpu1 300 0 0 900"]) = -1 ∧
      usagePercent 200 50 = ⟨75 * 2 ^ 46, -46⟩ ∧
      usagePercent 200 190 = ⟨5 * 2 ^ 50, -50⟩ ∧
      selectLeastBusy [(0, ⟨1000, 500⟩), (1, ⟨1000, 900⟩)]
        [(0, ⟨1200, 550⟩), (1, ⟨1200, 1090⟩)] = 1 := by
  set_option maxRecDepth 100000 in decide

/-- C9: `find_least_busy_core` returns the sentinel -1, and therefore neither 0
nor any other core id, whenever the first read fails, or the second read
fails, or both succeed and every core of the first snapshot that is also in
the second has `delta_total <= 0` (which includes the case where no core is in
both). -/
theorem find_least_busy_core_sentinel (file1 file2 : Option (List String))
    (h : (read_cpu_stats file1).1 = false ∨ (read_cpu_stats file2).1 = false ∨
      (∀ p ∈ (read_cpu_stats file1).2, ∀ s2 ∈ mapAt p.1 (read_cpu_stats file2).2,
        deltaTotal p.2 s2 ≤ 0)) :
    find_least_busy_core file1 file2 = -1 ∧ find_least_busy_core file1 file2 ≠ 0 := by
  have hres : find_least_busy_core file1 file2 = -1 := by
    unfold find_least_busy_core
    rcases h with h | h | h
    · simp [h]
    · simp [h]
    · simp only [selectLeastBusy_no_usable_delta _ _ h]
      simp
  rw [hres]
  exact ⟨rfl, by decide⟩

/-- Witness of C9: between the two reads core 0 does not advance and the total
of core 1 goes down; core 2 is only in the first snapshot. -/
theorem find_least_busy_core_sentinel_witness :
    read_cpu_stats
        (some ["cpu  7 0 0 9", "cpu0 5 0 0 5", "cpu1 1 0 0 9", "cpu2 1 1 1 1", "intr 12"])
      = (true, [(0, ⟨10, 5⟩), (1, ⟨10, 9⟩), (2, ⟨4, 1⟩)]) ∧
    read_cpu_stats (some ["cpu  7 0 0 9", "cpu0 5 0 0 5", "cpu1 0 0 0 9", "intr 12"])
      = (true, [(0, ⟨10, 5⟩), (1, ⟨9, 9⟩)]) ∧
    find_least_busy_core
        (some ["cpu  7 0 0 9", "cpu0 5 0 0 5", "cpu1 1 0 0 9", "cpu2 1 1 1 1", "intr 12"])
        (some ["cpu  7 0 0 9", "cpu0 5 0 0 5", "cpu1 0 0 0 9", "intr 12"]) = -1 :=
  ⟨by decide, by decide,
    (find_least_busy_core_sentinel
      (some ["cpu  7 0 0 9", "cpu0 5 0 0 5", "cpu1 1 0 0 9", "cpu2 1 1 1 1", "intr 12"])
      (some ["cpu  7 0 0 9", "cpu0 5 0 0 5", "cpu1 0 0 0 9", "intr 12"])
      (Or.inr (Or.inr (by decide)))).1⟩

/-! ## `read_cpu_stats` -/

/-- C10, the code at a failing input: a source with eleven cores in the
documented format. The read succeeds and the keys are 0 to 10, but parsing
starts at the fifth character of the line, which for the label `cpu10` is its
last digit: key 10 holds total = 0 + 10 + 20 + 30 = 60 and idle = 30, not
total = 10 + 20 + 30 + 40 = 100 and idle = 40. The single-digit lines are read
as documented. -/
theorem read_cpu_stats_two_digit_label :
    read_cpu_stats (some
        ["cpu  20 40 60 80 100", "cpu0 1 2 3 4 5", "cpu1 1 2 3 4 5", "cpu2 1 2 3 4 5",
         "cpu3 1 2 3 4 5", "cpu4 1 2 3 4 5", "cpu5 1 2 3 4 5", "cpu6 1 2 3 4 5",
         "cpu7 1 2 3 4 5", "cpu8 1 2 3 4 5", "cpu9 1 2 3 4 5", "cpu10 10 20 30 40 50",
         "intr 1234"])
      = (true,
          [(0, ⟨10, 4⟩), (1, ⟨10, 4⟩), (2, ⟨10, 4⟩), (3, ⟨10, 4⟩), (4, ⟨10, 4⟩), (5, ⟨10, 4⟩),
           (6, ⟨10, 4⟩), (7, ⟨10, 4⟩), (8, ⟨10, 4⟩), (9, ⟨10, 4⟩), (10, ⟨60, 30⟩)]) ∧
      extractFour ("cpu10 10 20 30 40 50".data.drop 4) = some (0, 10, 20, 30) ∧
      mapAt 10 (read_cpu_stats (some
        ["cpu  20 40 60 80 100", "cpu0 1 2 3 4 5", "cpu1 1 2 3 4 5", "cpu2 1 2 3 4 5",
         "cpu3 1 2 3 4 5", "cpu4 1 2 3 4 5", "cpu5 1 2 3 4 5", "cpu6 1 2 3 4 5",
         "cpu7 1 2 3 4 5", "cpu8 1 2 3 4 5", "cpu9 1 2 3 4 5", "cpu10 10 20 30 40 50",
         "intr 1234"])).2 ≠ some ⟨10 + 20 + 30 + 40, 40⟩ := by
  set_option maxRecDepth 100000 in decide

/-! ## Dispatch by action name -/

/-- C11, the code at a failing input: a message with the documented action
name `start` and a program path is routed to the unknown-action branch, so the
dispatch step starts nothing and the table stays empty; `startProgram` is
reached only under the name `StartJob`. The four other documented names are
routed as documented, for every command. -/
theorem route_start_is_unknown_action :
    route { action := "start", programPath := "/bin/ls" } = Invocation.unknownAction "start" ∧
      dispatchStep {} { command := "start", programPath := some "/bin/ls" }
          ⟨4242, 1700000000, ⟨0, 0⟩, 0, none⟩
        = { cmd := { action := "start", programPath := "/bin/ls" }
            table := []
            invoked := [Invocation.unknownAction "start"] } ∧
      (dispatchStep {} { command := "StartJob", programPath := some "/bin/ls" }
          ⟨4242, 1700000000, ⟨0, 0⟩, 0, none⟩).table
        = [("", { pid := 4242, status := "running", path := "/bin/ls",
                  startTime := 1700000000 })] ∧
      (∀ cmd : Command, route { cmd with action := "StartJob" }
        = Invocation.startProgram { cmd with action := "StartJob" }) ∧
      (∀ cmd : Command, route { cmd with action := "pause" }
        = Invocation.controlProcess cmd.id SIG_PAUSE "paused") ∧
      (∀ cmd : Command, route { cmd with action := "resume" }
        = Invocation.controlProcess cmd.id SIG_RESUME "running") ∧
      (∀ cmd : Command, route { cmd with action := "terminate" }
        = Invocation.controlProcess cmd.id SIG_TERMINATE "terminated") ∧
      (∀ cmd : Command, route { cmd with action := "status" }
        = Invocation.printStatus (if cmd.id = "" then cmd.processId else cmd.id)) := by
  refine ⟨by decide, by decide, by decide, ?_, ?_, ?_, ?_, ?_⟩
  · intro cmd
    simp [route]
  · intro cmd
    simp [route]
  · intro cmd
    simp [route]
  · intro cmd
    simp [route]
  · intro cmd
    simp [route]

/-! ## The monitor tick -/

theorem eraseReaped_eq_filter (pid : Int) (T : ProcessTable) :
    eraseReaped pid T = T.filter (fun e => decide (e.2.pid ≠ pid)) := by
  induction T with
  | nil => rfl
  | cons e rest ih =>
    by_cases h : e.2.pid = pid
    · simp [eraseReaped, h, ih]
    · simp [eraseReaped, h, ih]

/-- C14: for every table and every reaped pid `p > 0`, the table after one
monitor tick is the list of the entries of the old table whose pid differs
from `p`, in their order and unchanged (so every entry with pid `p` is gone,
and the table is the same when no entry has pid `p`); when the non-blocking
`waitpid` returns 0 or -1 the table is unchanged. -/
theorem monitorTick_removes_exactly_reaped (T : ProcessTable) (w : WaitResult) :
    (0 < w.ret →
        (monitorTick w T).1 = T.filter (fun e => decide (e.2.pid ≠ w.ret)) ∧
        (∀ e ∈ (monitorTick w T).1, e ∈ T ∧ e.2.pid ≠ w.ret) ∧
        (∀ e ∈ T, e.2.pid ≠ w.ret → e ∈ (monitorTick w T).1) ∧
        ((∀ e ∈ T, e.2.pid ≠ w.ret) → (monitorTick w T).1 = T)) ∧
      ((w.ret = 0 ∨ w.ret = -1) → (monitorTick w T).1 = T) := by
  constructor
  · intro hpos
    have h : (monitorTick w T).1 = T.filter (fun e => decide (e.2.pid ≠ w.ret)) := by
      unfold monitorTick
      simp [hpos, eraseReaped_eq_filter]
    rw [h]
    refine ⟨rfl, ?_, ?_, ?_⟩
    · intro e he
      simpa using List.mem_filter.mp he
    · intro e he hne
      exact List.mem_filter.mpr ⟨he, by simpa using hne⟩
    · intro hall
      apply List.filter_eq_self.mpr
      intro e he
      simpa using hall e he
  · intro h0
    have hnot : ¬ w.ret > 0 := by omega
    unfold monitorTick
    simp [hnot]

/-- Witness of C14: pid 101 is reaped, tracked by two entries. -/
theorem monitorTick_removes_exactly_reaped_witness :
    (monitorTick ⟨101, 0⟩
        [("job0", { pid := 100, status := "running", path := "/bin/sleep", startTime := 5 }),
         ("job1", { pid := 101, status := "paused", path := "/bin/ls", startTime := 6 }),
         ("job2", { pid := 101, status := "finished", path := "/bin/cat", startTime := 7 })]).1
      = [("job0", { pid := 100, status := "running", path := "/bin/sleep", startTime := 5 })] ∧
    (monitorTick ⟨-1, 0⟩
        [("job0", { pid := 100, status := "running", path := "/bin/sleep", startTime := 5 })]).1
      = [("job0", { pid := 100, status := "running", path := "/bin/sleep", startTime := 5 })] :=
  ⟨((monitorTick_removes_exactly_reaped
      [("job0", { pid := 100, status := "running", path := "/bin/sleep", startTime := 5 }),
       ("job1", { pid := 101, status := "paused", path := "/bin/ls", startTime := 6 }),
       ("job2", { pid := 101, status := "finished", path := "/bin/cat", startTime := 7 })]
      ⟨101, 0⟩).1 (by decide)).1.trans (by decide),
   (monitorTick_removes_exactly_reaped
      [("job0", { pid := 100, status := "running", path := "/bin/sleep", startTime := 5 })]
      ⟨-1, 0⟩).2 (Or.inr rfl)⟩

/-! ## `cleanupProcesses` -/

theorem mapAt_of_mem_of_nodup_keys {κ ν : Type} [DecidableEq κ] (m : List (κ × ν))
    (hnodup : (m.map Prod.fst).Nodup) (e : κ × ν) (he : e ∈ m) : mapAt e.1 m = some e.2 := by
  induction m with
  | nil => simp at he
  | cons e' rest ih =>
    obtain ⟨k', v'⟩ := e'
    have hn : k' ∉ rest.map Prod.fst ∧ (rest.map Prod.fst).Nodup := by
      simpa using hnodup
    rcases List.mem_cons.mp he with he | he
    · subst he
      simp [mapAt]
    · have hne : ¬ k' = e.1 := by
        intro h
        apply hn.1
        rw [h]
        exact List.mem_map_of_mem Prod.fst he
      simp [mapAt, hne, ih hn.2 he]

theorem cleanupSignals_all_return (T : ProcessTable) (killRes : Nat → Int)
    (waitRes : Nat → Option Int) (L : ProcessTable) (i : Nat)
    (hL : ∀ e ∈ L, mapAt e.1 T = some e.2)
    (hw : ∀ n, i ≤ n → n < i + L.length → killRes n = 0 → waitRes n ≠ none) :
    cleanupSignals T killRes waitRes i (L.map Prod.fst) = (signalAndWait killRes i L, true) := by
  induction L generalizing i with
  | nil => rfl
  | cons e rest ih =>
    have he : mapAt e.1 T = some e.2 := hL e (List.mem_cons_self _ _)
    have hrest : ∀ e' ∈ rest, mapAt e'.1 T = some e'.2 :=
      fun e' h => hL e' (List.mem_cons_of_mem _ h)
    have hw' : ∀ n, i + 1 ≤ n → n < i + 1 + rest.length → killRes n = 0 → waitRes n ≠ none := by
      intro n h1 h2
      exact hw n (by omega) (by simp only [List.length_cons]; omega)
    have ih' := ih (i + 1) hrest hw'
    by_cases hk : killRes i = 0
    · have hwi : waitRes i ≠ none :=
        hw i (le_refl i) (by simp only [List.length_cons]; omega) hk
      obtain ⟨r, hr⟩ := Option.ne_none_iff_exists'.mp hwi
      simp only [List.map_cons, cleanupSignals, he, hk, if_true, hr, ih', signalAndWait]
    · simp only [List.map_cons, cleanupSignals, he, hk, if_false, ih', signalAndWait]

theorem cleanupSignals_blocked_at (T : ProcessTable) (killRes : Nat → Int)
    (waitRes : Nat → Option Int) (L : ProcessTable) (i j : Nat)
    (hL : ∀ e ∈ L, mapAt e.1 T = some e.2)
    (hij : i ≤ j) (hj : j < i + L.length) (hkj : killRes j = 0) (hwj : waitRes j = none)
    (hw : ∀ n, i ≤ n → n < j → killRes n = 0 → waitRes n ≠ none) :
    cleanupSignals T killRes waitRes i (L.map Prod.fst) =
      (signalAndWait killRes i (L.take (j - i + 1)), false) := by
  induction L generalizing i with
  | nil =>
    simp only [List.length_nil] at hj
    omega
  | cons e rest ih =>
    have he : mapAt e.1 T = some e.2 := hL e (List.mem_cons_self _ _)
    have hrest : ∀ e' ∈ rest, mapAt e'.1 T = some e'.2 :=
      fun e' h => hL e' (List.mem_cons_of_mem _ h)
    by_cases hji : j = i
    · subst hji
      simp only [List.map_cons, cleanupSignals, he, hkj, if_true, hwj, Nat.sub_self,
        Nat.zero_add, List.take_succ_cons, List.take_zero, signalAndWait]
    · have hlt : i + 1 ≤ j := by omega
      have hj' : j < i + 1 + rest.length := by
        simp only [List.length_cons] at hj
        omega
      have hw' : ∀ n, i + 1 ≤ n → n < j → killRes n = 0 → waitRes n ≠ none := by
        intro n h1 h2
        exact hw n (by omega) h2
      have ih' := ih (i + 1) hrest hlt hj' hw'
      have htake : j - i + 1 = (j - (i + 1) + 1) + 1 := by omega
      rw [htake, List.take_succ_cons]
      by_cases hk : killRes i = 0
      · have hwi : waitRes i ≠ none := hw i (le_refl i) (by omega) hk
        obtain ⟨r, hr⟩ := Option.ne_none_iff_exists'.mp hwi
        simp only [List.map_cons, cleanupSignals, he, hk, if_true, hr, ih', signalAndWait]
      · simp only [List.map_cons, cleanupSignals, he, hk, if_false, ih', signalAndWait]

theorem cleanupProcesses_all_return (killRes : Nat → Int) (waitRes : Nat → Option Int)
    (T : ProcessTable) (hvalid : (T.map Prod.fst).Nodup)
    (hw : ∀ n, n < T.length → killRes n = 0 → waitRes n ≠ none) :
    cleanupProcesses killRes waitRes T = Outcome.returned [] (signalAndWait killRes 0 T) := by
  unfold cleanupProcesses
  cases T with
  | nil => rfl
  | cons e rest =>
    simp only [List.isEmpty_cons, Bool.false_eq_true, if_false]
    rw [cleanupSignals_all_return _ killRes waitRes (e :: rest) 0
      (fun e' he' => mapAt_of_mem_of_nodup_keys _ hvalid e' he')
      (fun n _ h2 => hw n (by omega))]
    simp

theorem cleanupProcesses_blocked_at (killRes : Nat → Int) (waitRes : Nat → Option Int)
    (T : ProcessTable) (hvalid : (T.map Prod.fst).Nodup) (j : Nat) (hj : j < T.length)
    (hkj : killRes j = 0) (hwj : waitRes j = none)
    (hw : ∀ n, n < j → killRes n = 0 → waitRes n ≠ none) :
    cleanupProcesses killRes waitRes T =
      Outcome.blocked T (signalAndWait killRes 0 (T.take (j + 1))) := by
  unfold cleanupProcesses
  cases T with
  | nil => simp at hj
  | cons e rest =>
    simp only [List.isEmpty_cons, Bool.false_eq_true, if_false]
    rw [cleanupSignals_blocked_at _ killRes waitRes (e :: rest) 0 j
      (fun e' he' => mapAt_of_mem_of_nodup_keys _ hvalid e' he')
      (Nat.zero_le j) (by omega) hkj hwj (fun n _ h2 => hw n h2)]
    simp

theorem filter_isKill_signalAndWait (killRes : Nat → Int) (i : Nat) (L : ProcessTable) :
    (signalAndWait killRes i L).filter OsCall.isKill
      = L.map (fun e => OsCall.kill e.2.pid SIG_TERMINATE) := by
  induction L generalizing i with
  | nil => rfl
  | cons e rest ih =>
    unfold signalAndWait
    split <;> simp [OsCall.isKill, ih]

theorem signalAndWait_calls (killRes : Nat → Int) (i : Nat) (L : ProcessTable) (c : OsCall)
    (hc : c ∈ signalAndWait killRes i L) :
    ∃ e ∈ L, c = OsCall.kill e.2.pid SIG_TERMINATE ∨ c = OsCall.waitpid e.2.pid 0 := by
  induction L generalizing i with
  | nil => simp [signalAndWait] at hc
  | cons e rest ih =>
    unfold signalAndWait at hc
    split at hc
    · rcases List.mem_cons.mp hc with h | h
      · exact ⟨e, List.mem_cons_self _ _, Or.inl h⟩
      · rcases List.mem_cons.mp h with h | h
        · exact ⟨e, List.mem_cons_self _ _, Or.inr h⟩
        · obtain ⟨e', he', hc'⟩ := ih (i + 1) h
          exact ⟨e', List.mem_cons_of_mem _ he', hc'⟩
    · rcases List.mem_cons.mp hc with h | h
      · exact ⟨e, List.mem_cons_self _ _, Or.inl h⟩
      · obtain ⟨e', he', hc'⟩ := ih (i + 1) h
        exact ⟨e', List.mem_cons_of_mem _ he', hc'⟩

theorem signalAndWait_all_failed (killRes : Nat → Int) (i : Nat) (L : ProcessTable)
    (hfail : ∀ j, killRes j ≠ 0) :
    signalAndWait killRes i L = L.map (fun e => OsCall.kill e.2.pid SIG_TERMINATE) := by
  induction L generalizing i with
  | nil => rfl
  | cons e rest ih =>
    unfold signalAndWait
    simp [hfail i, ih]

theorem signalAndWait_all_delivered (killRes : Nat → Int) (i : Nat) (L : ProcessTable)
    (hok : ∀ j, killRes j = 0) (e : String × TrackedProcess) (he : e ∈ L) :
    OsCall.waitpid e.2.pid 0 ∈ signalAndWait killRes i L := by
  induction L generalizing i with
  | nil => simp at he
  | cons e' rest ih =>
    unfold signalAndWait
    simp only [hok i, if_true]
    rcases List.mem_cons.mp he with h | h
    · subst h
      simp
    · exact List.mem_cons_of_mem _ (List.mem_cons_of_mem _ (ih (i + 1) h))

/-- C12, counterexample: two entries, both signals delivered (`kill` returns
0), and the blocking `waitpid` on the first, a stopped process with the signal
pending, never returns. `cleanupProcesses` does not return: it has sent
`SIG_TERMINATE` to pid 100 only, pid 101 gets no signal, and the table is not
cleared. -/
theorem cleanupProcesses_blocks_in_first_wait :
    cleanupProcesses (fun _ => 0) (fun i => if i = 0 then none else some 0)
        [("job0", { pid := 100, status := "paused", path := "/bin/sleep", startTime := 5 }),
         ("job1", { pid := 101, status := "running", path := "/bin/ls", startTime := 6 })]
      = Outcome.blocked
          [("job0", { pid := 100, status := "paused", path := "/bin/sleep", startTime := 5 }),
           ("job1", { pid := 101, status := "running", path := "/bin/ls", startTime := 6 })]
          [OsCall.kill 100 SIG_TERMINATE, OsCall.waitpid 100 0] ∧
    (cleanupProcesses (fun _ => 0) (fun i => if i = 0 then none else some 0)
        [("job0", { pid := 100, status := "paused", path := "/bin/sleep", startTime := 5 }),
         ("job1", { pid := 101, status := "running", path := "/bin/ls", startTime := 6 })]).table
      ≠ [] ∧
    OsCall.kill 101 SIG_TERMINATE ∉
      (cleanupProcesses (fun _ => 0) (fun i => if i = 0 then none else some 0)
        [("job0", { pid := 100, status := "paused", path := "/bin/sleep", startTime := 5 }),
         ("job1", { pid := 101, status := "running", path := "/bin/ls", startTime := 6 })]).calls := by
  decide

/-- C12, amended: for every table (a map, so its keys are distinct; it may be
empty) and whatever each `kill` returns: if every blocking `waitpid` that
`cleanupProcesses` makes, one after each `kill` that returned 0, returns, then
`cleanupProcesses` returns, the table is empty afterwards, and the `kill`
calls it made are, in table order, exactly one `kill(pid, SIG_TERMINATE)` for
each entry that was in the table; every other call is a blocking `waitpid` on
the pid of an entry. If instead the wait after the `kill` of entry number `j`
is the first that never returns, `cleanupProcesses` does not return: the table
is not cleared and the signal has been sent, once each, to the entries up to
number `j` only. -/
theorem cleanupProcesses_empties_and_signals_each (T : ProcessTable) (killRes : Nat → Int)
    (waitRes : Nat → Option Int) (hvalid : (T.map Prod.fst).Nodup) :
    ((∀ n, n < T.length → killRes n = 0 → waitRes n ≠ none) →
      (cleanupProcesses killRes waitRes T).returns = true ∧
      (cleanupProcesses killRes waitRes T).table = [] ∧
      (cleanupProcesses killRes waitRes T).calls.filter OsCall.isKill
        = T.map (fun e => OsCall.kill e.2.pid SIG_TERMINATE) ∧
      ((cleanupProcesses killRes waitRes T).calls.filter OsCall.isKill).length = T.length ∧
      (∀ c ∈ (cleanupProcesses killRes waitRes T).calls,
        ∃ e ∈ T, c = OsCall.kill e.2.pid SIG_TERMINATE ∨ c = OsCall.waitpid e.2.pid 0)) ∧
    (∀ j, j < T.length → killRes j = 0 → waitRes j = none →
      (∀ n, n < j → killRes n = 0 → waitRes n ≠ none) →
      (cleanupProcesses killRes waitRes T).returns = false ∧
      (cleanupProcesses killRes waitRes T).table = T ∧
      (cleanupProcesses killRes waitRes T).calls = signalAndWait killRes 0 (T.take (j + 1)) ∧
      (cleanupProcesses killRes waitRes T).calls.filter OsCall.isKill
        = (T.take (j + 1)).map (fun e => OsCall.kill e.2.pid SIG_TERMINATE)) := by
  constructor
  · intro hw
    rw [cleanupProcesses_all_return killRes waitRes T hvalid hw]
    refine ⟨rfl, rfl, filter_isKill_signalAndWait _ _ _, ?_, ?_⟩
    · show ((signalAndWait killRes 0 T).filter OsCall.isKill).length = T.length
      rw [filter_isKill_signalAndWait]
      simp
    · intro c hc
      exact signalAndWait_calls killRes 0 T c hc
  · intro j hj hkj hwj hw
    rw [cleanupProcesses_blocked_at killRes waitRes T hvalid j hj hkj hwj hw]
    exact ⟨rfl, rfl, rfl, filter_isKill_signalAndWait _ _ _⟩

/-- Witness of C12, amended: three entries, the second signal is not delivered,
the two waits return. -/
theorem cleanupProcesses_empties_and_signals_each_witness :
    cleanupProcesses (fun i => if i = 1 then -1 else 0) (fun _ => some 0)
        [("job0", { pid := 100, status := "running", path := "/bin/sleep", startTime := 5 }),
         ("job1", { pid := 101, status := "paused", path := "/bin/ls", startTime := 6 }),
         ("job2", { pid := 102, status := "running", path := "/bin/cat", startTime := 7 })]
      = Outcome.returned []
          [OsCall.kill 100 SIG_TERMINATE, OsCall.waitpid 100 0,
           OsCall.kill 101 SIG_TERMINATE,
           OsCall.kill 102 SIG_TERMINATE, OsCall.waitpid 102 0] ∧
    (cleanupProcesses (fun i => if i = 1 then -1 else 0) (fun _ => some 0)
        [("job0", { pid := 100, status := "running", path := "/bin/sleep", startTime := 5 }),
         ("job1", { pid := 101, status := "paused", path := "/bin/ls", startTime := 6 }),
         ("job2", { pid := 102, status := "running", path := "/bin/cat", startTime := 7 })]).table
      = [] :=
  ⟨by decide,
    ((cleanupProcesses_empties_and_signals_each
      [("job0", { pid := 100, status := "running", path := "/bin/sleep", startTime := 5 }),
       ("job1", { pid := 101, status := "paused", path := "/bin/ls", startTime := 6 }),
       ("job2", { pid := 102, status := "running", path := "/bin/cat", startTime := 7 })]
      (fun i => if i = 1 then -1 else 0) (fun _ => some 0) (by decide)).1
      (by intro n _ _; simp)).2.1⟩

/-! ## Removal and waiting -/

theorem mapAt_eraseReaped_of_pid_ne (pid : Int) (T : ProcessTable) (k : String)
    (proc : TrackedProcess) (hin : mapAt k T = some proc) (hne : proc.pid ≠ pid) :
    mapAt k (eraseReaped pid T) = some proc := by
  induction T with
  | nil => simp [mapAt] at hin
  | cons e rest ih =>
    obtain ⟨k', v'⟩ := e
    by_cases hk : k' = k
    · have hv : v' = proc := by simpa [mapAt, hk] using hin
      subst hv
      simp [eraseReaped, hne, mapAt, hk]
    · have hrest : mapAt k rest = some proc := by simpa [mapAt, hk] using hin
      by_cases hp : v'.pid = pid
      · simp [eraseReaped, hp, ih hrest]
      · simp [eraseReaped, hp, mapAt, hk, ih hrest]

theorem controlProcess_removed_was_waited (processId : String) (signalVal : Int)
    (newStatus : String) (w : WaitResult) (killRes : Int) (blockRes : Option Int)
    (T : ProcessTable) (k : String)
    (proc : TrackedProcess) (hin : mapAt k T = some proc)
    (hout : mapAt k (controlProcess processId signalVal newStatus w killRes blockRes T).table
      = none) :
    k = processId ∧ newStatus = "terminated" ∧
      (controlProcess processId signalVal newStatus w killRes blockRes T).returns = true ∧
      (controlProcess processId signalVal newStatus w killRes blockRes T).calls =
        [OsCall.waitpid proc.pid WNOHANG, OsCall.kill proc.pid signalVal,
          OsCall.waitpid proc.pid 0] := by
  have hmod : ∀ f : TrackedProcess → TrackedProcess,
      mapAt k (mapModify processId f T) ≠ none := by
    intro f
    by_cases hk : k = processId
    · rw [hk, mapAt_mapModify_self, ← hk, hin]
      simp
    · rw [mapAt_mapModify_of_ne _ _ _ _ hk, hin]
      simp
  unfold controlProcess at hout ⊢
  cases hat : mapAt processId T with
  | none =>
    rw [hat] at hout
    simp only at hout
    rw [hin] at hout
    simp at hout
  | some p =>
    rw [hat] at hout
    simp only at hout ⊢
    split at hout
    · exact absurd hout (hmod _)
    · split at hout
      · rw [hin] at hout
        simp at hout
      · split at hout
        · next hexit hkill hterm =>
          cases blockRes with
          | none =>
            simp only at hout
            exact absurd hout (hmod _)
          | some r =>
            simp only at hout
            by_cases hk : k = processId
            · have hp : p = proc := by
                rw [hk] at hin
                rw [hat] at hin
                exact Option.some.inj hin
              subst hp
              simp [hexit, hkill, hterm, hk]
            · rw [mapAt_mapErase_of_ne _ _ _ hk] at hout
              exact absurd hout (hmod _)
        · exact absurd hout (hmod _)

/-- C13, counterexample: `cleanupProcesses` on a table with one entry whose
termination signal cannot be delivered (`kill` returns -1) makes the single
call `kill(100, SIG_TERMINATE)`, no `waitpid`, and returns the empty table:
the id is dropped without its process having been waited on. -/
theorem cleanupProcesses_drops_unwaited :
    mapAt "job0"
        [("job0", ({ pid := 100, status := "running", path := "/bin/sleep", startTime := 5 } :
          TrackedProcess))]
      = some { pid := 100, status := "running", path := "/bin/sleep", startTime := 5 } ∧
    cleanupProcesses (fun _ => -1) (fun _ => some 0)
        [("job0", { pid := 100, status := "running", path := "/bin/sleep", startTime := 5 })]
      = Outcome.returned [] [OsCall.kill 100 SIG_TERMINATE] ∧
    mapAt "job0" (cleanupProcesses (fun _ => -1) (fun _ => some 0)
        [("job0", { pid := 100, status := "running", path := "/bin/sleep",
                    startTime := 5 })]).table
      = none ∧
    (∀ c ∈ (cleanupProcesses (fun _ => -1) (fun _ => some 0)
        [("job0", { pid := 100, status := "running", path := "/bin/sleep",
                    startTime := 5 })]).calls,
      c.isWait = false) := by
  decide

/-- C13, amended: for `controlProcess` and the monitor tick, and for every
outcome of the operating-system calls, an id present before the operation and
absent after it has had a wait for its pid in that operation: `controlProcess`
removes only the addressed id, only for the target `"terminated"`, after the
blocking `waitpid` on the entry's pid has returned; the monitor tick removes
only entries whose pid is the one its `waitpid(-1, WNOHANG)` returned.
`cleanupProcesses`, when the waits it makes return, removes every entry; for
each entry it calls `kill` and then the blocking `waitpid` on the pid exactly
when that `kill` returned 0. So every entry is waited on when every signal is
delivered, and no `waitpid` is made when none is: these entries are dropped
without a wait. -/
theorem removal_coincides_with_wait (T : ProcessTable) :
    (∀ (processId : String) (signalVal : Int) (newStatus : String) (w : WaitResult)
        (killRes : Int) (blockRes : Option Int) (k : String) (proc : TrackedProcess),
        mapAt k T = some proc →
        mapAt k (controlProcess processId signalVal newStatus w killRes blockRes T).table
          = none →
        k = processId ∧ newStatus = "terminated" ∧
          (controlProcess processId signalVal newStatus w killRes blockRes T).returns
            = true ∧
          OsCall.waitpid proc.pid 0 ∈
            (controlProcess processId signalVal newStatus w killRes blockRes T).calls) ∧
      (∀ (w : WaitResult) (k : String) (proc : TrackedProcess),
        mapAt k T = some proc → mapAt k (monitorTick w T).1 = none →
        0 < w.ret ∧ proc.pid = w.ret ∧
          (monitorTick w T).2 = [OsCall.waitpid (-1) WNOHANG]) ∧
      (∀ (killRes : Nat → Int) (waitRes : Nat → Option Int), (T.map Prod.fst).Nodup →
        ((∀ n, n < T.length → killRes n = 0 → waitRes n ≠ none) →
          (cleanupProcesses killRes waitRes T).returns = true ∧
          (cleanupProcesses killRes waitRes T).table = [] ∧
          (cleanupProcesses killRes waitRes T).calls = signalAndWait killRes 0 T) ∧
        ((∀ i, killRes i = 0) → (∀ i, waitRes i ≠ none) →
          ∀ e ∈ T, OsCall.waitpid e.2.pid 0 ∈ (cleanupProcesses killRes waitRes T).calls) ∧
        ((∀ i, killRes i ≠ 0) →
          (cleanupProcesses killRes waitRes T).returns = true ∧
          (cleanupProcesses killRes waitRes T).table = [] ∧
          ∀ c ∈ (cleanupProcesses killRes waitRes T).calls, c.isWait = false)) := by
  refine ⟨?_, ?_, ?_⟩
  · intro processId signalVal newStatus w killRes blockRes k proc hin hout
    obtain ⟨h1, h2, h3, h4⟩ :=
      controlProcess_removed_was_waited processId signalVal newStatus w killRes blockRes T
        k proc hin hout
    refine ⟨h1, h2, h3, ?_⟩
    rw [h4]
    simp
  · intro w k proc hin hout
    by_cases hpos : w.ret > 0
    · have hrun : monitorTick w T = (eraseReaped w.ret T, [OsCall.waitpid (-1) WNOHANG]) := by
        unfold monitorTick
        simp [hpos]
      rw [hrun] at hout ⊢
      refine ⟨hpos, ?_, rfl⟩
      by_contra hne
      have hkeep := mapAt_eraseReaped_of_pid_ne w.ret T k proc hin hne
      have hout' : mapAt k (eraseReaped w.ret T) = none := hout
      rw [hkeep] at hout'
      simp at hout'
    · have hrun : monitorTick w T = (T, [OsCall.waitpid (-1) WNOHANG]) := by
        unfold monitorTick
        simp [hpos]
      rw [hrun] at hout
      have hout' : mapAt k T = none := hout
      rw [hin] at hout'
      simp at hout'
  · intro killRes waitRes hvalid
    refine ⟨?_, ?_, ?_⟩
    · intro hw
      rw [cleanupProcesses_all_return killRes waitRes T hvalid hw]
      exact ⟨rfl, rfl, rfl⟩
    · intro hok hwait e he
      rw [cleanupProcesses_all_return killRes waitRes T hvalid (fun n _ _ => hwait n)]
      exact signalAndWait_all_delivered killRes 0 T hok e he
    · intro hfail
      rw [cleanupProcesses_all_return killRes waitRes T hvalid
        (fun n _ h => absurd h (hfail n))]
      refine ⟨rfl, rfl, ?_⟩
      intro c hc
      have hc' : c ∈ signalAndWait killRes 0 T := hc
      rw [signalAndWait_all_failed killRes 0 T hfail] at hc'
      obtain ⟨e, _, he⟩ := List.mem_map.mp hc'
      rw [← he]
      rfl

/-- Witness of C13, amended: terminating `job1` removes it after the blocking
wait on its pid 101. -/
theorem removal_coincides_with_wait_witness :
    mapAt "job1" (controlProcess "job1" SIG_TERMINATE "terminated" ⟨0, 0⟩ 0 (some 101)
        [("job0", { pid := 100, status := "running", path := "/bin/sleep", startTime := 5 }),
         ("job1", { pid := 101, status := "running", path := "/bin/ls", startTime := 6 })]).table
      = none ∧
    OsCall.waitpid 101 0 ∈ (controlProcess "job1" SIG_TERMINATE "terminated" ⟨0, 0⟩ 0 (some 101)
        [("job0", { pid := 100, status := "running", path := "/bin/sleep", startTime := 5 }),
         ("job1", { pid := 101, status := "running", path := "/bin/ls", startTime := 6 })]).calls :=
  ⟨by decide,
    ((removal_coincides_with_wait
      [("job0", { pid := 100, status := "running", path := "/bin/sleep", startTime := 5 }),
       ("job1", { pid := 101, status := "running", path := "/bin/ls", startTime := 6 })]).1
      "job1" SIG_TERMINATE "terminated" ⟨0, 0⟩ 0 (some 101) "job1"
      { pid := 101, status := "running", path := "/bin/ls", startTime := 6 }
      (by decide) (by decide)).2.2.2⟩

/-! ## The id used by the dispatch loop -/

theorem receiveInto_id (cmd : Command) (msg : MQMessage) :
    (receiveInto cmd msg).id = cmd.id ∧ (receiveInto cmd msg).processId = cmd.processId :=
  ⟨rfl, rfl⟩

theorem route_id_of_empty (cmd : Command) (hid : cmd.id = "") (hpid : cmd.processId = "") :
    ∀ id ∈ (route cmd).id, id = "" := by
  intro id hmem
  unfold route at hmem
  split at hmem
  · simp only [Invocation.id, Option.mem_def, Option.some.injEq] at hmem
    rw [← hmem, hid]
  · split at hmem
    · simp only [Invocation.id, Option.mem_def, Option.some.injEq] at hmem
      rw [← hmem, hid]
    · split at hmem
      · simp only [Invocation.id, Option.mem_def, Option.some.injEq] at hmem
        rw [← hmem, hid]
      · split at hmem
        · simp only [Invocation.id, Option.mem_def, Option.some.injEq] at hmem
          rw [← hmem, hid]
        · split at hmem
          · simp only [Invocation.id, Option.mem_def, Option.some.injEq, hid, if_true] at hmem
            rw [← hmem, hpid]
          · simp [Invocation.id] at hmem

theorem startProgram_single_slot (cmd : Command) (forkRes now : Int) (T : ProcessTable)
    (hid : cmd.id = "") (hT : T = [] ∨ ∃ v, T = [("", v)]) :
    (startProgram cmd forkRes now T).1 = [] ∨
      ∃ v, (startProgram cmd forkRes now T).1 = [("", v)] := by
  unfold startProgram
  split
  · exact hT
  · split
    · exact hT
    · next hcount =>
      split
      · exact hT
      · split
        · exact hT
        · rcases hT with h | ⟨v, h⟩
          · subst h
            exact Or.inr (by simp [mapAssign, hid])
          · subst h
            simp [mapCount, mapAt, hid] at hcount

theorem controlProcess_single_slot (processId : String) (signalVal : Int)
    (newStatus : String) (w : WaitResult) (killRes : Int) (blockRes : Option Int)
    (T : ProcessTable) (hT : T = [] ∨ ∃ v, T = [("", v)]) :
    (controlProcess processId signalVal newStatus w killRes blockRes T).table = [] ∨
      ∃ v, (controlProcess processId signalVal newStatus w killRes blockRes T).table
        = [("", v)] := by
  rcases hT with h | ⟨v, h⟩
  · subst h
    exact Or.inl (by simp [controlProcess, mapAt])
  · subst h
    unfold controlProcess
    by_cases hk : "" = processId
    · subst hk
      simp only [mapAt, if_true]
      split
      · exact Or.inr (by simp [mapModify])
      · split
        · exact Or.inr ⟨v, rfl⟩
        · split
          · cases blockRes with
            | none => exact Or.inr (by simp [mapModify])
            | some r => exact Or.inl (by simp [mapModify, mapErase])
          · exact Or.inr (by simp [mapModify])
    · simp only [mapAt, hk, if_false]
      exact Or.inr ⟨v, rfl⟩

theorem monitorTick_single_slot (w : WaitResult) (T : ProcessTable)
    (hT : T = [] ∨ ∃ v, T = [("", v)]) :
    (monitorTick w T).1 = [] ∨ ∃ v, (monitorTick w T).1 = [("", v)] := by
  rcases hT with h | ⟨v, h⟩
  · subst h
    unfold monitorTick
    split <;> exact Or.inl rfl
  · subst h
    unfold monitorTick
    split
    · by_cases hp : v.pid = w.ret
      · exact Or.inl (by simp [eraseReaped, hp])
      · exact Or.inr ⟨v, by simp [eraseReaped, hp]⟩
    · exact Or.inr ⟨v, rfl⟩

theorem step_single_slot (s : ManagerState) (ev : Event)
    (hid : s.cmd.id = "") (hpid : s.cmd.processId = "")
    (hinv : ∀ inv ∈ s.invoked, ∀ id ∈ inv.id, id = "")
    (hT : s.table = [] ∨ ∃ v, s.table = [("", v)]) :
    (s.step ev).cmd.id = "" ∧ (s.step ev).cmd.processId = "" ∧
      (∀ inv ∈ (s.step ev).invoked, ∀ id ∈ inv.id, id = "") ∧
      ((s.step ev).table = [] ∨ ∃ v, (s.step ev).table = [("", v)]) := by
  cases hb : s.blocked with
  | true =>
    have hstep : s.step ev = s := by
      cases ev <;> simp [ManagerState.step, hb]
    rw [hstep]
    exact ⟨hid, hpid, hinv, hT⟩
  | false =>
    cases ev with
    | tick w =>
      have hstep : s.step (Event.tick w) = { s with table := (monitorTick w s.table).1 } := by
        simp [ManagerState.step, hb]
      rw [hstep]
      exact ⟨hid, hpid, hinv, monitorTick_single_slot w s.table hT⟩
    | message msg os =>
      have hstep : s.step (Event.message msg os) = dispatchStep s msg os := by
        simp [ManagerState.step, hb]
      rw [hstep]
      have hid' : (receiveInto s.cmd msg).id = "" := hid
      have hpid' : (receiveInto s.cmd msg).processId = "" := hpid
      refine ⟨hid', hpid', ?_, ?_⟩
      · intro inv hmem
        have hmem' : inv ∈ s.invoked ++ [route (receiveInto s.cmd msg)] := hmem
        rcases List.mem_append.mp hmem' with h | h
        · exact hinv inv h
        · rw [List.mem_singleton.mp h]
          exact route_id_of_empty _ hid' hpid'
      · show ((route (receiveInto s.cmd msg)).run os s.table).table = [] ∨
          ∃ v, ((route (receiveInto s.cmd msg)).run os s.table).table = [("", v)]
        cases hr : route (receiveInto s.cmd msg) with
        | startProgram cmd =>
          have hcid : cmd.id = "" :=
            route_id_of_empty _ hid' hpid' cmd.id (by rw [hr]; rfl)
          exact startProgram_single_slot cmd os.forkRes os.now s.table hcid hT
        | controlProcess processId signalVal newStatus =>
          exact controlProcess_single_slot processId signalVal newStatus os.w os.killRes
            os.blockRes s.table hT
        | printStatus commandId => exact hT
        | unknownAction action => exact hT

theorem foldl_step_single_slot (events : List Event) (s : ManagerState)
    (hid : s.cmd.id = "") (hpid : s.cmd.processId = "")
    (hinv : ∀ inv ∈ s.invoked, ∀ id ∈ inv.id, id = "")
    (hT : s.table = [] ∨ ∃ v, s.table = [("", v)]) :
    (events.foldl ManagerState.step s).cmd.id = "" ∧
      (events.foldl ManagerState.step s).cmd.processId = "" ∧
      (∀ inv ∈ (events.foldl ManagerState.step s).invoked, ∀ id ∈ inv.id, id = "") ∧
      ((events.foldl ManagerState.step s).table = [] ∨
        ∃ v, (events.foldl ManagerState.step s).table = [("", v)]) := by
  induction events generalizing s with
  | nil => exact ⟨hid, hpid, hinv, hT⟩
  | cons ev rest ih =>
    obtain ⟨h1, h2, h3, h4⟩ := step_single_slot s ev hid hpid hinv hT
    exact ih (s.step ev) h1 h2 h3 h4

/-- C16: a dispatch step assigns `action`, `programPath` and `args` of its
`Command` and never `id` or `processId`, which stay the empty strings of the
default-constructed `Command`. So after any sequence of dispatched messages
and monitor ticks from the empty table, whatever the messages hold and the
operating system answers, every call made to `startProgram`, `controlProcess`
or `printStatus` carried the empty string as id, the table holds at most one
entry, and the key of that entry is the empty string. -/
theorem dispatch_uses_empty_id (events : List Event) :
    (∀ (s : ManagerState) (msg : MQMessage) (os : OsAnswers),
        (dispatchStep s msg os).cmd.id = s.cmd.id ∧
        (dispatchStep s msg os).cmd.processId = s.cmd.processId) ∧
      (runEvents events).cmd.id = "" ∧ (runEvents events).cmd.processId = "" ∧
      (∀ inv ∈ (runEvents events).invoked, ∀ id ∈ inv.id, id = "") ∧
      (runEvents events).table.length ≤ 1 ∧
      (∀ e ∈ (runEvents events).table, e.1 = "") := by
  obtain ⟨h1, h2, h3, h4⟩ :=
    foldl_step_single_slot events {} rfl rfl (by intro inv h; simp at h) (Or.inl rfl)
  refine ⟨fun s msg os => ⟨rfl, rfl⟩, h1, h2, h3, ?_, ?_⟩
  · rcases h4 with h | ⟨v, h⟩
    · show (events.foldl ManagerState.step {}).table.length ≤ 1
      rw [h]
      simp
    · show (events.foldl ManagerState.step {}).table.length ≤ 1
      rw [h]
      simp
  · intro e he
    have he' : e ∈ (events.foldl ManagerState.step {}).table := he
    rcases h4 with h | ⟨v, h⟩
    · rw [h] at he'
      simp at he'
    · rw [h] at he'
      rw [List.mem_singleton.mp he']

/-! ## The selected core -/

theorem Dbl.den_pos (x : Dbl) : 0 < x.den := by
  unfold Dbl.den
  positivity

theorem Dbl.lt_iff_toRat (x y : Dbl) : Dbl.lt x y = true ↔ x.toRat < y.toRat := by
  have hx : (0 : ℚ) < (x.den : ℚ) := by exact_mod_cast x.den_pos
  have hy : (0 : ℚ) < (y.den : ℚ) := by exact_mod_cast y.den_pos
  unfold Dbl.lt Dbl.toRat
  rw [decide_eq_true_iff, div_lt_div_iff₀ hx hy]
  constructor
  · intro h
    exact_mod_cast h
  · intro h
    exact_mod_cast h

theorem hundred_toRat : hundred.toRat = 100 := by
  simp [hundred, Dbl.toRat, Dbl.num, Dbl.den]

theorem selectStep_eq (stats2 : StatsMap) (acc : Int × Dbl) (pair1 : Int × CoreStats) :
    selectStep stats2 acc pair1 =
      match coreUsage stats2 pair1 with
      | none => acc
      | some u => if Dbl.lt u acc.2 then (pair1.1, u) else acc := by
  unfold selectStep coreUsage
  cases hat : mapAt pair1.1 stats2 with
  | none => simp only [hat]
  | some s2 =>
    simp only [hat]
    by_cases hd : deltaTotal pair1.2 s2 > 0
    · simp only [hd, if_true]
    · simp only [hd, if_false]

theorem coreUsage_eq_some (stats2 : StatsMap) (pair1 : Int × CoreStats) (u : Dbl)
    (h : coreUsage stats2 pair1 = some u) :
    ∃ s2, mapAt pair1.1 stats2 = some s2 ∧ 0 < deltaTotal pair1.2 s2 ∧
      u = usagePercent (deltaTotal pair1.2 s2) (deltaIdle pair1.2 s2) := by
  unfold coreUsage at h
  cases hat : mapAt pair1.1 stats2 with
  | none => simp [hat] at h
  | some s2 =>
    simp only [hat] at h
    by_cases hd : deltaTotal pair1.2 s2 > 0
    · simp only [hd, if_true, Option.some.injEq] at h
      exact ⟨s2, rfl, hd, h.symm⟩
    · simp [hd] at h

theorem selectInv_step (stats2 : StatsMap) (done : StatsMap) (acc : Int × Dbl)
    (p : Int × CoreStats) (h : SelectInv stats2 done acc) :
    SelectInv stats2 (done ++ [p]) (selectStep stats2 acc p) := by
  rw [selectStep_eq]
  cases hu : coreUsage stats2 p with
  | none =>
    simp only
    rcases h with ⟨hacc, hall⟩ | ⟨l₁, s1, l₂, hdone, hc, hlt, hbefore, hafter⟩
    · refine Or.inl ⟨hacc, ?_⟩
      intro q hq u hqu
      rcases List.mem_append.mp hq with hq | hq
      · exact hall q hq u hqu
      · rw [List.mem_singleton.mp hq, hu] at hqu
        simp at hqu
    · refine Or.inr ⟨l₁, s1, l₂ ++ [p], by simp [hdone], hc, hlt, hbefore, ?_⟩
      intro q hq u hqu
      rcases List.mem_append.mp hq with hq | hq
      · exact hafter q hq u hqu
      · rw [List.mem_singleton.mp hq, hu] at hqu
        simp at hqu
  | some u' =>
    simp only
    by_cases hless : Dbl.lt u' acc.2 = true
    · simp only [hless, if_true]
      have hlt' : u'.toRat < acc.2.toRat := (Dbl.lt_iff_toRat _ _).mp hless
      refine Or.inr ⟨done, p.2, [], by simp, hu, ?_, ?_, by simp⟩
      · rcases h with ⟨hacc, _⟩ | ⟨_, _, _, _, _, hlt, _, _⟩
        · rw [hacc] at hlt'
          simpa [hundred_toRat] using hlt'
        · exact lt_trans hlt' hlt
      · intro q hq u hqu
        show u'.toRat < u.toRat
        rcases h with ⟨hacc, hall⟩ | ⟨l₁, s1, l₂, hdone, hc, hlt, hbefore, hafter⟩
        · have h100 : ¬ u.toRat < 100 := hall q hq u hqu
          rw [hacc] at hlt'
          have : u'.toRat < 100 := by simpa [hundred_toRat] using hlt'
          exact lt_of_lt_of_le this (not_lt.mp h100)
        · rw [hdone] at hq
          rcases List.mem_append.mp hq with hq | hq
          · exact lt_trans hlt' (hbefore q hq u hqu)
          · rcases List.mem_cons.mp hq with hq | hq
            · rw [hq, hc] at hqu
              have hquu : acc.2 = u := by simpa using hqu
              rw [← hquu]
              exact hlt'
            · exact lt_of_lt_of_le hlt' (hafter q hq u hqu)
    · simp only [hless, if_false]
      have hge : ¬ u'.toRat < acc.2.toRat := fun hcon => hless ((Dbl.lt_iff_toRat _ _).mpr hcon)
      rcases h with ⟨hacc, hall⟩ | ⟨l₁, s1, l₂, hdone, hc, hlt, hbefore, hafter⟩
      · refine Or.inl ⟨hacc, ?_⟩
        intro q hq u hqu
        rcases List.mem_append.mp hq with hq | hq
        · exact hall q hq u hqu
        · rw [List.mem_singleton.mp hq, hu] at hqu
          have hquu : u' = u := by simpa using hqu
          rw [← hquu]
          rw [hacc] at hge
          simpa [hundred_toRat] using hge
      · refine Or.inr ⟨l₁, s1, l₂ ++ [p], by simp [hdone], hc, hlt, hbefore, ?_⟩
        intro q hq u hqu
        rcases List.mem_append.mp hq with hq | hq
        · exact hafter q hq u hqu
        · rw [List.mem_singleton.mp hq, hu] at hqu
          have hquu : u' = u := by simpa using hqu
          rw [← hquu]
          exact not_lt.mp hge

theorem selectInv_foldl (stats2 : StatsMap) (rest done : StatsMap) (acc : Int × Dbl)
    (h : SelectInv stats2 done acc) :
    SelectInv stats2 (done ++ rest) (rest.foldl (selectStep stats2) acc) := by
  induction rest generalizing done acc with
  | nil => simpa using h
  | cons p rest ih =>
    have hstep := ih (done ++ [p]) (selectStep stats2 acc p) (selectInv_step stats2 done acc p h)
    simpa using hstep

theorem selectInv_final (stats1 stats2 : StatsMap) :
    SelectInv stats2 stats1 (stats1.foldl (selectStep stats2) (-1, hundred)) := by
  have h0 : SelectInv stats2 [] (-1, hundred) := Or.inl ⟨rfl, by simp⟩
  simpa using selectInv_foldl stats2 stats1 [] (-1, hundred) h0

/-- C15, counterexample, with the usage taken as the exact fraction
`100 * (deltaTotal - deltaIdle) / deltaTotal`. First pair of reads: core 0
has deltas 3 and 2, core 1 has deltas 300000000000000001 and
200000000000000001; both are in both snapshots with `deltaTotal > 0`, the
usage of core 1 is strictly smaller than that of core 0, and the selection
returns core 0: both usages are the same `double`. Second pair: the only core
has deltas 2^60 + 1 and 1, its usage is strictly below 100, and the selection
returns -1: its usage as a `double` is 100.0. -/
theorem selectLeastBusy_exact_usage_not_compared :
    read_cpu_stats (some ["cpu  0 0 0 0", "cpu0 0 0 0 0", "cpu1 0 0 0 0"])
      = (true, [(0, ⟨0, 0⟩), (1, ⟨0, 0⟩)]) ∧
    read_cpu_stats (some ["cpu  100000000000000001 0 0 200000000000000003", "cpu0 1 0 0 2",
        "cpu1 100000000000000000 0 0 200000000000000001"])
      = (true, [(0, ⟨3, 2⟩), (1, ⟨300000000000000001, 200000000000000001⟩)]) ∧
    find_least_busy_core (some ["cpu  0 0 0 0", "cpu0 0 0 0 0", "cpu1 0 0 0 0"])
      (some ["cpu  100000000000000001 0 0 200000000000000003", "cpu0 1 0 0 2",
        "cpu1 100000000000000000 0 0 200000000000000001"]) = 0 ∧
    selectLeastBusy [(0, ⟨0, 0⟩), (1, ⟨0, 0⟩)]
      [(0, ⟨3, 2⟩), (1, ⟨300000000000000001, 200000000000000001⟩)] = 0 ∧
    0 < deltaTotal ⟨0, 0⟩ ⟨3, 2⟩ ∧
    0 < deltaTotal ⟨0, 0⟩ ⟨300000000000000001, 200000000000000001⟩ ∧
    exactUsage ⟨0, 0⟩ ⟨300000000000000001, 200000000000000001⟩ < exactUsage ⟨0, 0⟩ ⟨3, 2⟩ ∧
    usagePercent 300000000000000001 200000000000000001 = usagePercent 3 2 ∧
    find_least_busy_core (some ["cpu  0 0 0 0", "cpu0 0 0 0 0"])
      (some ["cpu  1152921504606846976 0 0 1", "cpu0 1152921504606846976 0 0 1"]) = -1 ∧
    selectLeastBusy [(0, ⟨0, 0⟩)] [(0, ⟨1152921504606846977, 1⟩)] = -1 ∧
    0 < deltaTotal ⟨0, 0⟩ ⟨1152921504606846977, 1⟩ ∧
    exactUsage ⟨0, 0⟩ ⟨1152921504606846977, 1⟩ < 100 ∧
    Dbl.lt (usagePercent 1152921504606846977 1) hundred = false := by
  refine ⟨by set_option maxRecDepth 100000 in decide,
    by set_option maxRecDepth 100000 in decide,
    by set_option maxRecDepth 100000 in decide,
    by set_option maxRecDepth 100000 in decide,
    by set_option maxRecDepth 100000 in decide,
    by set_option maxRecDepth 100000 in decide, ?_,
    by set_option maxRecDepth 100000 in decide,
    by set_option maxRecDepth 100000 in decide,
    by set_option maxRecDepth 100000 in decide,
    by set_option maxRecDepth 100000 in decide, ?_,
    by set_option maxRecDepth 100000 in decide⟩
  · simp only [exactUsage]
    norm_num
  · simp only [exactUsage]
    norm_num

/-- C15, amended: on two snapshots (maps: the ids of the first are in ascending
order, and they are core ids, so not negative), with the usage of a core being
the `double` value the code computes for
`100.0 * (delta_total - delta_idle) / delta_total`, each operation rounded to
binary64: when the selection returns an id `c` other than -1, `c` is in both
snapshots with `delta_total > 0`, its usage is strictly below 100, at most the
usage of every core that is in both snapshots with `delta_total > 0`, and
strictly below the usage of every such core with a smaller id. The selection
returns -1 exactly when no core that is in both snapshots with
`delta_total > 0` has a usage strictly below 100. -/
theorem selectLeastBusy_selects_first_minimum (stats1 stats2 : StatsMap)
    (hsorted : (stats1.map Prod.fst).Pairwise (fun a b => a < b))
    (hids : ∀ p ∈ stats1, 0 ≤ p.1) :
    (selectLeastBusy stats1 stats2 ≠ -1 →
      ∃ s1 s2, mapAt (selectLeastBusy stats1 stats2) stats1 = some s1 ∧
        mapAt (selectLeastBusy stats1 stats2) stats2 = some s2 ∧
        0 < deltaTotal s1 s2 ∧
        Dbl.lt (usagePercent (deltaTotal s1 s2) (deltaIdle s1 s2)) hundred = true ∧
        (usagePercent (deltaTotal s1 s2) (deltaIdle s1 s2)).toRat < 100 ∧
        (∀ p ∈ stats1, ∀ u ∈ coreUsage stats2 p,
          (usagePercent (deltaTotal s1 s2) (deltaIdle s1 s2)).toRat ≤ u.toRat) ∧
        (∀ p ∈ stats1, p.1 < selectLeastBusy stats1 stats2 → ∀ u ∈ coreUsage stats2 p,
          (usagePercent (deltaTotal s1 s2) (deltaIdle s1 s2)).toRat < u.toRat)) ∧
      (selectLeastBusy stats1 stats2 = -1 ↔
        ∀ p ∈ stats1, ∀ u ∈ coreUsage stats2 p, ¬ u.toRat < 100) := by
  have hinv := selectInv_final stats1 stats2
  unfold selectLeastBusy
  generalize stats1.foldl (selectStep stats2) (-1, hundred) = acc at hinv
  rcases hinv with ⟨hacc, hall⟩ | ⟨l₁, s1, l₂, hdone, hc, hlt, hbefore, hafter⟩
  · have h1 : acc.1 = -1 := by rw [hacc]
    exact ⟨fun hne => absurd h1 hne, fun _ => hall, fun _ => h1⟩
  · have hmem : (acc.1, s1) ∈ stats1 := by
      rw [hdone]
      simp
    have hnonneg : 0 ≤ acc.1 := hids _ hmem
    have hne : acc.1 ≠ -1 := by omega
    obtain ⟨s2, hs2, hdelta, husage⟩ := coreUsage_eq_some stats2 (acc.1, s1) acc.2 hc
    have hnodup : (stats1.map Prod.fst).Nodup :=
      List.Pairwise.imp (fun h => ne_of_lt h) hsorted
    have hs1 : mapAt acc.1 stats1 = some s1 :=
      mapAt_of_mem_of_nodup_keys stats1 hnodup (acc.1, s1) hmem
    have hkeys : (l₁.map Prod.fst ++ acc.1 :: l₂.map Prod.fst).Pairwise (fun a b => a < b) := by
      have := hsorted
      rw [hdone] at this
      simpa using this
    obtain ⟨_, htail, hcross⟩ := List.pairwise_append.mp hkeys
    have hafterKeys : ∀ b ∈ l₂.map Prod.fst, acc.1 < b := (List.pairwise_cons.mp htail).1
    constructor
    · intro _
      refine ⟨s1, s2, hs1, hs2, hdelta, ?_, ?_, ?_, ?_⟩
      · rw [← husage, Dbl.lt_iff_toRat, hundred_toRat]
        exact hlt
      · rw [← husage]
        exact hlt
      · intro p hp u hpu
        rw [← husage]
        rw [hdone] at hp
        rcases List.mem_append.mp hp with hp | hp
        · exact le_of_lt (hbefore p hp u hpu)
        · rcases List.mem_cons.mp hp with hp | hp
          · rw [hp, hc] at hpu
            have : acc.2 = u := by simpa using hpu
            rw [this]
          · exact hafter p hp u hpu
      · intro p hp hsmall u hpu
        rw [← husage]
        rw [hdone] at hp
        rcases List.mem_append.mp hp with hp | hp
        · exact hbefore p hp u hpu
        · rcases List.mem_cons.mp hp with hp | hp
          · rw [hp] at hsmall
            exact absurd hsmall (lt_irrefl _)
          · have := hafterKeys p.1 (List.mem_map_of_mem Prod.fst hp)
            omega
    · constructor
      · intro h
        exact absurd h hne
      · intro hall
        exact absurd hlt (hall (acc.1, s1) hmem acc.2 (by rw [hc]; rfl))

/-- Witness of C15, amended: the sample of the spec; core 1 (usage 5) is selected over
core 0 (usage 75). -/
theorem selectLeastBusy_selects_first_minimum_witness :
    selectLeastBusy [(0, ⟨1000, 500⟩), (1, ⟨1000, 900⟩)]
        [(0, ⟨1200, 550⟩), (1, ⟨1200, 1090⟩)] = 1 ∧
      ¬ (selectLeastBusy [(0, ⟨1000, 500⟩), (1, ⟨1000, 900⟩)]
          [(0, ⟨1200, 550⟩), (1, ⟨1200, 1090⟩)] = -1) ∧
      ¬ (∀ p ∈ [((0 : Int), (⟨1000, 500⟩ : CoreStats)), (1, ⟨1000, 900⟩)],
          ∀ u ∈ coreUsage [(0, ⟨1200, 550⟩), (1, ⟨1200, 1090⟩)] p, ¬ u.toRat < 100) := by
  have hsel : selectLeastBusy [(0, ⟨1000, 500⟩), (1, ⟨1000, 900⟩)]
      [(0, ⟨1200, 550⟩), (1, ⟨1200, 1090⟩)] = 1 := by
    set_option maxRecDepth 100000 in decide
  have hne : ¬ (selectLeastBusy [(0, ⟨1000, 500⟩), (1, ⟨1000, 900⟩)]
      [(0, ⟨1200, 550⟩), (1, ⟨1200, 1090⟩)] = -1) := by
    rw [hsel]
    decide
  exact ⟨hsel, hne, fun hall =>
    hne ((selectLeastBusy_selects_first_minimum [(0, ⟨1000, 500⟩), (1, ⟨1000, 900⟩)]
      [(0, ⟨1200, 550⟩), (1, ⟨1200, 1090⟩)] (by decide) (by decide)).2.mpr hall)⟩

/-! ## Snapshots returned by `read_cpu_stats` -/

theorem mapAssign_intLess_append (core_id : Int) (stats : CoreStats) (m : StatsMap)
    (hlt : ∀ p ∈ m, p.1 < core_id) :
    mapAssign intLess core_id stats m = m ++ [(core_id, stats)] := by
  induction m with
  | nil => rfl
  | cons e rest ih =>
    obtain ⟨k', v'⟩ := e
    have hk : k' < core_id := hlt (k', v') (List.mem_cons_self _ _)
    have h1 : intLess core_id k' = false := by
      unfold intLess
      simp
      omega
    have h2 : ¬ core_id = k' := by omega
    unfold mapAssign
    simp only [h1, h2, if_false, Bool.false_eq_true]
    rw [ih (fun p hp => hlt p (List.mem_cons_of_mem _ hp))]
    rfl

theorem readCoreLines_keys (lines : List String) (core_id : Int) (m : StatsMap)
    (h0 : 0 ≤ core_id) (hpair : (m.map Prod.fst).Pairwise (fun a b => a < b))
    (hrange : ∀ p ∈ m, 0 ≤ p.1 ∧ p.1 < core_id) :
    ((readCoreLines lines core_id m).map Prod.fst).Pairwise (fun a b => a < b) ∧
      ∀ p ∈ readCoreLines lines core_id m, 0 ≤ p.1 := by
  induction lines generalizing core_id m with
  | nil => exact ⟨hpair, fun p hp => (hrange p hp).1⟩
  | cons line rest ih =>
    unfold readCoreLines
    split
    · exact ⟨hpair, fun p hp => (hrange p hp).1⟩
    · split
      · split
        · next user nice system idle _ =>
          dsimp only
          rw [mapAssign_intLess_append core_id _ m (fun p hp => (hrange p hp).2)]
          apply ih
          · omega
          · rw [List.map_append, List.pairwise_append]
            refine ⟨hpair, by simp, ?_⟩
            intro a ha b hb
            obtain ⟨p, hp, hpa⟩ := List.mem_map.mp ha
            have hb' : b = core_id := by simpa using hb
            rw [hb', ← hpa]
            exact (hrange p hp).2
          · intro p hp
            rcases List.mem_append.mp hp with hp | hp
            · have := hrange p hp
              exact ⟨this.1, by omega⟩
            · rw [List.mem_singleton.mp hp]
              exact ⟨h0, by simp⟩
        · exact ih core_id m h0 hpair hrange
      · exact ih core_id m h0 hpair hrange

/-- Every snapshot returned by `read_cpu_stats` has its ids in ascending order
and none negative. -/
theorem read_cpu_stats_keys (file : Option (List String)) :
    (((read_cpu_stats file).2).map Prod.fst).Pairwise (fun a b => a < b) ∧
      ∀ p ∈ (read_cpu_stats file).2, 0 ≤ p.1 := by
  unfold read_cpu_stats
  cases file with
  | none => simp
  | some lines =>
    exact readCoreLines_keys (lines.drop 1) 0 [] (le_refl 0) (by simp) (by simp)

/-- Two usages that differ as exact fractions and are the same `double`: both
roundings give the value the code compares. -/
theorem usagePercent_rounds_together :
    usagePercent (3 * 10 ^ 17 + 1) (2 * 10 ^ 17 + 1) = usagePercent 3 2 ∧
      ((100 : ℚ) * ((3 * 10 ^ 17 + 1) - (2 * 10 ^ 17 + 1)) / (3 * 10 ^ 17 + 1)
        < 100 * (3 - 2) / 3) := by
  constructor
  · set_option maxRecDepth 100000 in decide
  · norm_num

end CustomCoreManager
